import Mathlib

/-!
Calendar interval arithmetic of the Qwt time-scale playground.

A shallow embedding of `timedate.cpp` and `timescaledraw.cpp`.

Conventions of the embedding

* C++ `int` and `qint64` values are `Int`.  `a / b` on `int` operands
  truncates toward zero and is `Int.tdiv`; the one `int` sum that can leave
  the 32-bit range for a date inside the supported range,
  `year + 4800 + m1` in `qwtToJulianDay`, and the `year++` of
  `qwtCeilDate`, are reduced with `wrapInt` (two's-complement wraparound).
* A `double` holding a whole number is the `Int` of that number.  In
  `qwtToJulianDay` every value computed for a year that fits an `int` is
  far below `2^53`, where `double` arithmetic on whole numbers is exact, so
  `::floor(x / n)` is floor division there.  Timestamps leave that range:
  in `qwtToDateTime` and `qwtFromDateTime` the result of every `double`
  operation is rounded to 53 significant bits, ties to even, by
  `roundDouble` and `truncQuotDouble`.
* The Qt value types are modelled after Qt 5.0, the version whose
  Julian-day bounds the source quotes: a `QDate` is a Julian day number,
  a `QTime` a millisecond count since midnight, and a `QDateTime` the pair
  of the two.
* The conversion between local time and UTC (`qwtToTimeSpec`) is the
  identity, so a `QDateTime` carries no time specification.
* The ambient `QLocale` is an explicit argument.
-/

namespace Qt

/-- Milliseconds per day, `MSECS_PER_DAY` of Qt. -/
def MSECS_PER_DAY : Int := 86400000

/-- Milliseconds per hour. -/
def MSECS_PER_HOUR : Int := 3600000

/-- Milliseconds per minute. -/
def MSECS_PER_MIN : Int := 60000

/-- Result of `getDateFromJulianDay`. -/
structure ParsedDate where
  year : Int
  month : Int
  day : Int
deriving DecidableEq

/-- Julian day of a proleptic Gregorian date (`julianDayFromDate` of
`qdatetime.cpp`); every division is a floor division. -/
def julianDayFromDate (year month day : Int) : Int :=
  let year := if year < 0 then year + 1 else year
  let a := (14 - month) / 12
  let y := year + 4800 - a
  let m := month + 12 * a - 3
  day + (153 * m + 2) / 5 + 365 * y + y / 4 - y / 100 + y / 400 - 32045

/-- Proleptic Gregorian date of a Julian day (`getDateFromJulianDay` of
`qdatetime.cpp`); every division is a floor division. -/
def getDateFromJulianDay (julianDay : Int) : ParsedDate :=
  let a := julianDay + 32044
  let b := (4 * a + 3) / 146097
  let c := a - (146097 * b) / 4
  let d := (4 * c + 3) / 1461
  let e := c - (1461 * d) / 4
  let m := (5 * e + 2) / 153
  let day := e - (153 * m + 2) / 5 + 1
  let month := m + 3 - 12 * (m / 10)
  let year := 100 * b + d - 4800 + m / 10
  let year := if year ≤ 0 then year - 1 else year
  { year := year, month := month, day := day }

/-- The date type `QDate`: a Julian day number. -/
structure QDate where
  jd : Int
deriving DecidableEq

namespace QDate

/-- Julian day of the null date (the least `qint64`). -/
def nullJd : Int := -9223372036854775808

/-- Least valid Julian day of `QDate`. -/
def minJd : Int := -784350574879

/-- Greatest valid Julian day of `QDate`. -/
def maxJd : Int := 784354017364

/-- The default-constructed date `QDate()`. -/
def null : QDate := ⟨nullJd⟩

/-- Validity of a date, `QDate::isValid()`. -/
def isValid (d : QDate) : Bool := decide (minJd ≤ d.jd) && decide (d.jd ≤ maxJd)

/-- Nullness of a date, `QDate::isNull()`. -/
def isNull (d : QDate) : Bool := !d.isValid

/-- Date of a Julian day, `QDate::fromJulianDay`. -/
def fromJulianDay (jd : Int) : QDate :=
  if minJd ≤ jd ∧ jd ≤ maxJd then ⟨jd⟩ else null

/-- Julian day of a date, `QDate::toJulianDay()`. -/
def toJulianDay (d : QDate) : Int := d.jd

/-- Leap years of the proleptic Gregorian calendar without year 0,
`QDate::isLeapYear`. -/
def isLeapYear (y : Int) : Bool :=
  let y := if y < 1 then y + 1 else y
  (decide (y % 4 = 0) && decide (y % 100 ≠ 0)) || decide (y % 400 = 0)

/-- Days of a month in a year that is not a leap year, the table
`monthDays` of `qdatetime.cpp`. -/
def monthDays (month : Int) : Int :=
  if month = 2 then 28
  else if month = 4 ∨ month = 6 ∨ month = 9 ∨ month = 11 then 30
  else if 1 ≤ month ∧ month ≤ 12 then 31
  else 0

/-- Validity of a year, month, day triple, the static `QDate::isValid`. -/
def isValidYMD (year month day : Int) : Bool :=
  if year = 0 then false
  else
    (decide (day > 0) && decide (month > 0) && decide (month ≤ 12)) &&
      (decide (day ≤ monthDays month) ||
        (decide (day = 29) && decide (month = 2) && isLeapYear year))

/-- The constructor `QDate(y, m, d)`. -/
def ofYMD (year month day : Int) : QDate :=
  if isValidYMD year month day then ⟨julianDayFromDate year month day⟩ else null

/-- Year of a date, `QDate::year()`; 0 for a null date. -/
def year (d : QDate) : Int :=
  if d.isNull then 0 else (getDateFromJulianDay d.jd).year

/-- Month of a date, `QDate::month()`; 0 for a null date. -/
def month (d : QDate) : Int :=
  if d.isNull then 0 else (getDateFromJulianDay d.jd).month

/-- Day of the month, `QDate::day()`; 0 for a null date. -/
def day (d : QDate) : Int :=
  if d.isNull then 0 else (getDateFromJulianDay d.jd).day

/-- Weekday of a date, 1 for Monday up to 7 for Sunday,
`QDate::dayOfWeek()`; 0 for a null date. -/
def dayOfWeek (d : QDate) : Int :=
  if d.isNull then 0
  else if d.jd ≥ 0 then Int.tmod d.jd 7 + 1
  else Int.tmod (d.jd + 1) 7 + 7

/-- Number of days of the month of a date, `QDate::daysInMonth()`. -/
def daysInMonth (d : QDate) : Int :=
  if d.isNull then 0
  else
    let pd := getDateFromJulianDay d.jd
    if pd.month = 2 ∧ isLeapYear pd.year = true then 29 else monthDays pd.month

/-- The date `ndays` later, `QDate::addDays`. -/
def addDays (d : QDate) (ndays : Int) : QDate :=
  if d.isNull then null else fromJulianDay (d.jd + ndays)

/-- The date `nmonths` later, `QDate::addMonths`: the month is advanced, a
change of sign of the year skips year 0, and the day is cut down to the
length of the resulting month. -/
def addMonths (d : QDate) (nmonths : Int) : QDate :=
  if !d.isValid then null
  else if nmonths = 0 then d
  else
    let pd := getDateFromJulianDay d.jd
    let idx := pd.month - 1 + nmonths
    let y := pd.year + idx / 12
    let m := idx % 12 + 1
    let y :=
      if (pd.year > 0 ∧ y ≤ 0) ∨ (pd.year < 0 ∧ y ≥ 0) then
        (if nmonths > 0 then y + 1 else y - 1)
      else y
    let first := ofYMD y m 1
    ofYMD y m (min pd.day first.daysInMonth)

end QDate

/-- The time type `QTime`: milliseconds since midnight, `-1` when null. -/
structure QTime where
  mds : Int
deriving DecidableEq

namespace QTime

/-- The value of `mds` of a null time, `QTime::NullTime`. -/
def NullTime : Int := -1

/-- The default-constructed time `QTime()`. -/
def null : QTime := ⟨NullTime⟩

/-- Nullness of a time, `QTime::isNull()`: true only for the
default-constructed time, midnight is not null. -/
def isNull (t : QTime) : Bool := decide (t.mds = NullTime)

/-- Validity of a time, `QTime::isValid()`. -/
def isValid (t : QTime) : Bool := decide (t.mds > NullTime) && decide (t.mds < MSECS_PER_DAY)

/-- Milliseconds since midnight, 0 for a null time, `QTime::ds()`. -/
def ds (t : QTime) : Int := if t.mds = NullTime then 0 else t.mds

/-- Hour of a time, `QTime::hour()`. -/
def hour (t : QTime) : Int :=
  if !t.isValid then -1 else Int.tdiv t.ds MSECS_PER_HOUR

/-- Minute of a time, `QTime::minute()`. -/
def minute (t : QTime) : Int :=
  if !t.isValid then -1 else Int.tdiv (Int.tmod t.ds MSECS_PER_HOUR) MSECS_PER_MIN

/-- Second of a time, `QTime::second()`. -/
def second (t : QTime) : Int :=
  if !t.isValid then -1 else Int.tmod (Int.tdiv t.ds 1000) 60

/-- Millisecond of a time, `QTime::msec()`. -/
def msec (t : QTime) : Int :=
  if !t.isValid then -1 else Int.tmod t.ds 1000

/-- Validity of hour, minute, second, millisecond, the static
`QTime::isValid`. -/
def isValidHMS (h m s ms : Int) : Bool :=
  decide (0 ≤ h) && decide (h < 24) && decide (0 ≤ m) && decide (m < 60) &&
    decide (0 ≤ s) && decide (s < 60) && decide (0 ≤ ms) && decide (ms < 1000)

/-- The constructor `QTime(h, m, s, ms)`. -/
def ofHMS (h m s ms : Int) : QTime :=
  if isValidHMS h m s ms then ⟨(h * 3600 + m * 60 + s) * 1000 + ms⟩ else null

end QTime

/-- The type `QDateTime` as the pair of its date and its time. -/
structure QDateTime where
  date : QDate
  time : QTime
deriving DecidableEq

namespace QDateTime

/-- The default-constructed `QDateTime()`, the invalid sentinel. -/
def null : QDateTime := ⟨QDate.null, QTime.null⟩

/-- Validity, `QDateTime::isValid()`. -/
def isValid (dt : QDateTime) : Bool := dt.date.isValid && dt.time.isValid

/-- The constructor `QDateTime(date, time)`: a valid date with an invalid
time gets midnight. -/
def ofDateTime (date : QDate) (time : QTime) : QDateTime :=
  ⟨date, if date.isValid && !time.isValid then QTime.ofHMS 0 0 0 0 else time⟩

/-- The constructor `QDateTime(date)`: midnight of the date. -/
def ofDate (date : QDate) : QDateTime := ⟨date, QTime.ofHMS 0 0 0 0⟩

/-- The setter `QDateTime::setDate`. -/
def setDate (dt : QDateTime) (date : QDate) : QDateTime :=
  ⟨date, if date.isValid && !dt.time.isValid then QTime.ofHMS 0 0 0 0 else dt.time⟩

/-- The setter `QDateTime::setTime`. -/
def setTime (dt : QDateTime) (time : QTime) : QDateTime := ⟨dt.date, time⟩

/-- The comparison `operator<` of two date-times of the same time
specification: by date, then by time. -/
def lt (a b : QDateTime) : Bool :=
  if a.date ≠ b.date then decide (a.date.jd < b.date.jd)
  else decide (a.time.mds < b.time.mds)

/-- The comparison `operator<=`, that is `!(b < a)`. -/
def le (a b : QDateTime) : Bool := !(lt b a)

/-- The date-time `msecs` milliseconds later, `QDateTime::addMSecs`: the
time is normalised into a day and the whole days are carried into the
date. -/
def addMSecs (dt : QDateTime) (msecs : Int) : QDateTime :=
  if !dt.isValid then null
  else
    let tt := dt.time.ds + msecs
    ⟨QDate.fromJulianDay (dt.date.jd + tt / MSECS_PER_DAY), ⟨tt % MSECS_PER_DAY⟩⟩

/-- The date-time `s` seconds later, `QDateTime::addSecs`. -/
def addSecs (dt : QDateTime) (s : Int) : QDateTime := dt.addMSecs (s * 1000)

/-- The date-time `ndays` days later, `QDateTime::addDays`. -/
def addDays (dt : QDateTime) (ndays : Int) : QDateTime :=
  ofDateTime (dt.date.addDays ndays) dt.time

/-- The date-time `nmonths` months later, `QDateTime::addMonths`. -/
def addMonths (dt : QDateTime) (nmonths : Int) : QDateTime :=
  ofDateTime (dt.date.addMonths nmonths) dt.time

end QDateTime

/-- The weekday constant `Qt::Thursday`. -/
def Thursday : Int := 4

/-- The days of the week, `Qt::DayOfWeek`. -/
inductive DayOfWeek where
  | Monday | Tuesday | Wednesday | Thursday | Friday | Saturday | Sunday
deriving DecidableEq

/-- Numeric value of a `Qt::DayOfWeek`, 1 for Monday up to 7 for Sunday. -/
def DayOfWeek.toInt : DayOfWeek → Int
  | .Monday => 1
  | .Tuesday => 2
  | .Wednesday => 3
  | .Thursday => 4
  | .Friday => 5
  | .Saturday => 6
  | .Sunday => 7

/-- The part of `QLocale` the source reads: the first day of the week and
whether the country is the United States. -/
structure QLocale where
  firstDayOfWeek : DayOfWeek
  isUnitedStates : Bool
deriving DecidableEq

end Qt

open Qt

/-- Two's-complement reduction of a whole number into the range of a 32-bit
`int`. -/
def wrapInt (x : Int) : Int := (x + 2147483648) % 4294967296 - 2147483648

namespace TimeDate

/-- The enumerator `TimeDate::Millisecond`. -/
def Millisecond : Int := 0

/-- The enumerator `TimeDate::Second`. -/
def Second : Int := 1

/-- The enumerator `TimeDate::Minute`. -/
def Minute : Int := 2

/-- The enumerator `TimeDate::Hour`. -/
def Hour : Int := 3

/-- The enumerator `TimeDate::Day`. -/
def Day : Int := 4

/-- The enumerator `TimeDate::Week`. -/
def Week : Int := 5

/-- The enumerator `TimeDate::Month`. -/
def Month : Int := 6

/-- The enumerator `TimeDate::Year`. -/
def Year : Int := 7

/-- The bound `TimeDate::minJulianDay()`. -/
def minJulianDay : Int := -784350574879

/-- The bound `TimeDate::maxJulianDay()`. -/
def maxJulianDay : Int := 784354017364

/-- The date `TimeDate::minDate()`. -/
def minDate : QDate := QDate.fromJulianDay minJulianDay

/-- The date `TimeDate::maxDate()`. -/
def maxDate : QDate := QDate.fromJulianDay maxJulianDay

end TimeDate

/-- Julian day of 1970-01-01, `s_julianDay0`. -/
def s_julianDay0 : Int := (QDateTime.ofDate (QDate.ofYMD 1970 1 1)).date.toJulianDay

/-- Milliseconds per day, `s_msecsPerDay`. -/
def s_msecsPerDay : Int := 86400000

/-- The locale's first day of the week, `qwtFirstDayOfWeek`. -/
def qwtFirstDayOfWeek (locale : QLocale) : Int := locale.firstDayOfWeek.toInt

/-- Julian day of a date by the formula of `qwtToJulianDay`: `m1` and `m2`
use truncating `int` division, the other quotients are floored. -/
def qwtToJulianDay (year month day : Int) : Int :=
  let m1 := Int.tdiv (month - 14) 12
  let m2 := Int.tdiv (367 * (month - 2 - 12 * m1)) 12
  let y1 := (4900 + year + m1) / 100
  (1461 * wrapInt (wrapInt (year + 4800) + m1)) / 4 + m2 - (3 * y1) / 4 + day - 32075

/-- Date of year, month, day, `qwtToDate`. -/
def qwtToDate (year month day : Int) : QDate :=
  if year > 100000 then
    let jd := qwtToJulianDay year month day
    if jd < TimeDate.minJulianDay ∨ jd > TimeDate.maxJulianDay then QDate.null
    else QDate.fromJulianDay jd
  else QDate.ofYMD year month day

/-- Binary logarithm by repeated halving; `fuel` bounds the number of
halvings. -/
def log2Fuel : Nat → Nat → Nat
  | 0, _ => 0
  | fuel + 1, n => if n < 2 then 0 else log2Fuel fuel (n / 2) + 1

/-- The exponent of the leading binary digit of a positive natural number. -/
def ilog2 (n : Nat) : Nat := log2Fuel n n

/-- The quotient `num / den` rounded to the nearest whole number, ties to
the even one. -/
def roundHalfEven (num den : Nat) : Nat :=
  let f := num / den
  let r := num % den
  if 2 * r < den then f
  else if den < 2 * r then f + 1
  else if f % 2 = 0 then f else f + 1

/-- The binary exponent `e` of the quotient of two positive naturals, the
one with `2^e ≤ a / n < 2^(e+1)`. -/
def quotExponent (a n : Nat) : Int :=
  let e0 : Int := (ilog2 a : Int) - (ilog2 n : Int)
  if 0 ≤ e0 then (if n * 2 ^ e0.toNat ≤ a then e0 else e0 - 1)
  else (if n ≤ a * 2 ^ (-e0).toNat then e0 else e0 - 1)

/-- The whole number `x` rounded to the nearest `double`: 53 significant
bits, ties to even. -/
def roundDouble (x : Int) : Int :=
  let a := x.natAbs
  if a < 2 ^ 53 then x
  else
    let s := ilog2 a - 52
    let mag : Int := ((roundHalfEven a (2 ^ s) * 2 ^ s : Nat) : Int)
    if 0 < x then mag else -mag

/-- The `double` quotient `v / n` of two whole-number doubles converted to
an integer, `static_cast<qint64>( v / n )`: the quotient is rounded to 53
significant bits and then truncated toward zero. -/
def truncQuotDouble (v n : Int) : Int :=
  if v = 0 ∨ n = 0 then 0
  else
    let a := v.natAbs
    let m := n.natAbs
    let s := 52 - quotExponent a m
    let mag : Nat :=
      if 0 ≤ s then roundHalfEven (a * 2 ^ s.toNat) m / 2 ^ s.toNat
      else roundHalfEven a (m * 2 ^ (-s).toNat) * 2 ^ (-s).toNat
    if (0 < v ∧ 0 < n) ∨ (v < 0 ∧ n < 0) then (mag : Int) else -(mag : Int)

/-- The change of time specification `qwtToTimeSpec`: local time and UTC
coincide, so the date-time is returned as it is. -/
def qwtToTimeSpec (dt : QDateTime) : QDateTime := dt

/-- Calendar value of a millisecond timestamp, `qwtToDateTime`; `value`
is a whole-number `double`. -/
def qwtToDateTime (value : Int) : QDateTime :=
  let days := roundDouble (truncQuotDouble value s_msecsPerDay)
  let jd := roundDouble (s_julianDay0 + days)
  if jd > TimeDate.maxJulianDay ∨ jd < TimeDate.minJulianDay then QDateTime.null
  else
    let d := QDate.fromJulianDay jd
    if !d.isValid then QDateTime.null
    else
      let msecs := roundDouble (value - roundDouble (days * s_msecsPerDay))
      qwtToTimeSpec ((QDateTime.ofDate d).addMSecs msecs)

/-- Millisecond timestamp of a calendar value, `qwtFromDateTime`. -/
def qwtFromDateTime (dateTime : QDateTime) : Int :=
  let dt := qwtToTimeSpec dateTime
  let days := roundDouble (dt.date.toJulianDay - s_julianDay0)
  let time := dt.time
  let secs := roundDouble
    (roundDouble (roundDouble (3600 * time.hour) + roundDouble (60 * time.minute))
      + time.second)
  roundDouble
    (roundDouble (roundDouble (days * s_msecsPerDay) + time.msec) + roundDouble (1000 * secs))

/-- Rounding up to a granularity, `qwtCeilDate`.  The values of the calls
`dt.addSecs(..)` and `dt.addMonths(1)` are not assigned in the source, so
they are bound to an unused name here. -/
def qwtCeilDate (locale : QLocale) (dateTime : QDateTime) (type : Int) : QDateTime :=
  if dateTime.date.jd ≥ TimeDate.maxDate.jd then dateTime
  else if type = TimeDate.Millisecond then dateTime
  else if type = TimeDate.Second then
    let t := dateTime.time
    let dt := (QDateTime.null.setDate dateTime.date).setTime
      (QTime.ofHMS t.hour t.minute t.second 0)
    let _discarded := if dt.lt dateTime then dt.addSecs 1 else dt
    dt
  else if type = TimeDate.Minute then
    let t := dateTime.time
    let dt := (QDateTime.null.setDate dateTime.date).setTime
      (QTime.ofHMS t.hour t.minute 0 0)
    let _discarded := if dt.lt dateTime then dt.addSecs 60 else dt
    dt
  else if type = TimeDate.Hour then
    let t := dateTime.time
    let dt := (QDateTime.null.setDate dateTime.date).setTime
      (QTime.ofHMS t.hour 0 0 0)
    let _discarded := if dt.lt dateTime then dt.addSecs 3600 else dt
    dt
  else if type = TimeDate.Day then
    let dt := QDateTime.ofDate dateTime.date
    if dt.lt dateTime then dt.addDays 1 else dt
  else if type = TimeDate.Week then
    let dt := QDateTime.ofDate dateTime.date
    let dt := if dt.lt dateTime then dt.addDays 1 else dt
    let days := qwtFirstDayOfWeek locale - dt.date.dayOfWeek
    let days := if days < 0 then days + 7 else days
    dt.addDays days
  else if type = TimeDate.Month then
    let dt := QDateTime.ofDate (qwtToDate dateTime.date.year dateTime.date.month 1)
    let _discarded := if dt.lt dateTime then dt.addMonths 1 else dt
    dt
  else if type = TimeDate.Year then
    let d := dateTime.date
    let year := d.year
    let year :=
      if d.month > 1 ∨ d.day > 1 ∨ !dateTime.time.isNull then wrapInt (year + 1) else year
    let year := if year = 0 then wrapInt (year + 1) else year
    QDateTime.ofDate (qwtToDate year 1 1)
  else QDateTime.null

/-- Rounding down to a granularity, `qwtFloorDate`. -/
def qwtFloorDate (locale : QLocale) (dateTime : QDateTime) (type : Int) : QDateTime :=
  if dateTime.date.jd ≤ TimeDate.minDate.jd then dateTime
  else if type = TimeDate.Millisecond then dateTime
  else if type = TimeDate.Second then
    let t := dateTime.time
    (QDateTime.null.setDate dateTime.date).setTime (QTime.ofHMS t.hour t.minute t.second 0)
  else if type = TimeDate.Minute then
    let t := dateTime.time
    (QDateTime.null.setDate dateTime.date).setTime (QTime.ofHMS t.hour t.minute 0 0)
  else if type = TimeDate.Hour then
    let t := dateTime.time
    (QDateTime.null.setDate dateTime.date).setTime (QTime.ofHMS t.hour 0 0 0)
  else if type = TimeDate.Day then QDateTime.ofDate dateTime.date
  else if type = TimeDate.Week then
    let dt := QDateTime.ofDate dateTime.date
    let days := dt.date.dayOfWeek - qwtFirstDayOfWeek locale
    let days := if days < 0 then days + 7 else days
    dt.addDays (-days)
  else if type = TimeDate.Month then
    QDateTime.ofDate (qwtToDate dateTime.date.year dateTime.date.month 1)
  else if type = TimeDate.Year then
    QDateTime.ofDate (qwtToDate dateTime.date.year 1 1)
  else QDateTime.null

/-- Start of week 0 of a year, `qwtDateOfWeek0`. -/
def qwtDateOfWeek0 (locale : QLocale) (year : Int) : QDate :=
  let dt0 := QDate.ofYMD year 1 1
  let days := dt0.dayOfWeek - qwtFirstDayOfWeek locale
  let days := if days < 0 then days + 7 else days
  let dt0 := dt0.addDays (-days)
  if !locale.isUnitedStates then
    let d := Thursday - qwtFirstDayOfWeek locale
    let d := if d < 0 then d + 7 else d
    if (dt0.addDays d).year < year then dt0.addDays 7 else dt0
  else dt0

/-- The scan of `qwtIntervalType` from granularity `type` on; `fuel` bounds
the number of iterations of the outer loop. -/
def qwtIntervalTypeLoop (locale : QLocale) (dateTimes : List QDateTime) :
    Nat → Int → Option Int
  | 0, _ => none
  | fuel + 1, type =>
    if type ≤ TimeDate.Year then
      let type := if type = TimeDate.Week then type + 1 else type
      if dateTimes.any (fun dt => decide (qwtFloorDate locale dt type ≠ dt)) then
        some (type - 1)
      else qwtIntervalTypeLoop locale dateTimes fuel (type + 1)
    else some TimeDate.Year

/-- The classifier `qwtIntervalType`; the outer loop runs at most seven
times. -/
def qwtIntervalType (locale : QLocale) (dateTimes : List QDateTime) : Option Int :=
  qwtIntervalTypeLoop locale dateTimes 8 TimeDate.Second

/-- The display pattern of a granularity,
`TimeScaleDraw::format( TimeDate::IntervalType )`. -/
def TimeScaleDraw.format (intervalType : Int) : String :=
  if intervalType = TimeDate.Year then "yyyy"
  else if intervalType = TimeDate.Month then "MMM yyyy"
  else if intervalType = TimeDate.Week ∨ intervalType = TimeDate.Day then "ddd dd MMM yyyy"
  else if intervalType = TimeDate.Hour ∨ intervalType = TimeDate.Minute then
    "hh:mm\nddd dd MMM yyyy"
  else if intervalType = TimeDate.Second then "hh:mm:ss\nddd dd MMM yyyy"
  else "hh:mm:ss:zzz\nddd dd MMM yyyy"

/-- The date-time of year, month, day, hour, minute, second, millisecond. -/
def mkDateTime (y mo d h mi s ms : Int) : QDateTime :=
  ⟨QDate.ofYMD y mo d, QTime.ofHMS h mi s ms⟩

/-- A locale whose week starts on Monday, outside the United States. -/
def mondayLocale : QLocale := ⟨DayOfWeek.Monday, false⟩

/-- The Julian day by the formula of the specification, with the
mathematical floor at every division. -/
def specJulianDay (year month day : Int) : Int :=
  let m1 := (month - 14) / 12
  let m2 := (367 * (month - 2 - 12 * m1)) / 12
  let y1 := (4900 + year + m1) / 100
  (1461 * (year + 4800 + m1)) / 4 + m2 - (3 * y1) / 4 + day - 32075

/-- The Julian day by the formula of the specification with `m1` and `m2`
computed by the division that truncates toward zero, and the floor at the
other divisions. -/
def specJulianDayTruncating (year month day : Int) : Int :=
  let m1 := Int.tdiv (month - 14) 12
  let m2 := Int.tdiv (367 * (month - 2 - 12 * m1)) 12
  let y1 := (4900 + year + m1) / 100
  (1461 * (year + 4800 + m1)) / 4 + m2 - (3 * y1) / 4 + day - 32075

/-- Number of days of a month of a year of the proleptic Gregorian
calendar. -/
def daysOfMonth (year month : Int) : Int :=
  if month = 2 ∧ QDate.isLeapYear year = true then 29 else QDate.monthDays month

/-- The calendar day following a date: the next day of the month, else day
1 of the next month, else January 1 of the next year. -/
def followingDay (year month day : Int) : ParsedDate :=
  if day < daysOfMonth year month then ⟨year, month, day + 1⟩
  else if month < 12 then ⟨year, month + 1, 1⟩
  else ⟨year + 1, 1, 1⟩

/-- The scan order of the classifier in the specification: Second, Minute,
Hour, Day, Month, Year. -/
def scanOrder : List Int :=
  [TimeDate.Second, TimeDate.Minute, TimeDate.Hour, TimeDate.Day, TimeDate.Month,
    TimeDate.Year]

/-- Every sample equals its own floor at granularity `type`. -/
def allAligned (locale : QLocale) (dateTimes : List QDateTime) (type : Int) : Bool :=
  dateTimes.all (fun dt => decide (qwtFloorDate locale dt type = dt))

/-- The last granularity of the longest prefix of `order` at which every
sample equals its own floor, `previous` when the first one already fails. -/
def lastAligned (locale : QLocale) (dateTimes : List QDateTime) : Int → List Int → Int
  | previous, [] => previous
  | previous, type :: rest =>
    if allAligned locale dateTimes type then lastAligned locale dateTimes type rest
    else previous

/-- The classification of the specification: the last granularity of the
longest prefix of the scan order at which every sample equals its own
floor, Millisecond when Second already fails. -/
def specIntervalType (locale : QLocale) (dateTimes : List QDateTime) : Int :=
  lastAligned locale dateTimes TimeDate.Millisecond scanOrder

/-- Ranges of the intermediate values of `getDateFromJulianDay`. -/
theorem getDate_core (a b c d e m : Int)
    (hb : b = (4 * a + 3) / 146097) (hc : c = a - (146097 * b) / 4)
    (hd : d = (4 * c + 3) / 1461) (he : e = c - (1461 * d) / 4)
    (hm : m = (5 * e + 2) / 153) :
    0 ≤ d ∧ d ≤ 99 ∧ 0 ≤ e ∧ e ≤ 365 ∧ 0 ≤ m ∧ m ≤ 11 ∧
      a = 36524 * b + b / 4 + 365 * d + d / 4 + e := by
  have h1 : 0 ≤ c ∧ c ≤ 36524 := by omega
  have h2 : 0 ≤ d ∧ d ≤ 99 := by omega
  have h3 : 0 ≤ e ∧ e ≤ 365 := by omega
  have h4 : 0 ≤ m ∧ m ≤ 11 := by omega
  have qb : 146097 * b / 4 = 36524 * b + b / 4 := by omega
  have qd : 1461 * d / 4 = 365 * d + d / 4 := by omega
  omega

/-- The Julian day in terms of the century `b`, the year of the century `d`
and the month `m` counted from March. -/
theorem julianDayFromDate_march (Y M D b d m : Int) (hm0 : 0 ≤ m) (hm1 : m ≤ 11)
    (hd0 : 0 ≤ d) (hd1 : d ≤ 99) (hM : M = m + 3 - 12 * (m / 10))
    (hY : (if Y < 0 then Y + 1 else Y) = 100 * b + d - 4800 + m / 10) :
    julianDayFromDate Y M D
      = D + (153 * m + 2) / 5 + 36524 * b + b / 4 + 365 * d + d / 4 - 32045 := by
  simp only [julianDayFromDate]
  rw [hY, hM]
  have h10 : m / 10 = 0 ∧ m ≤ 9 ∨ m / 10 = 1 ∧ 10 ≤ m := by omega
  have q100 : (100 * b + d) / 100 = b := by omega
  have q4 : (100 * b + d) / 4 = 25 * b + d / 4 := by omega
  have q400 : (100 * b + d) / 400 = b / 4 := by omega
  rcases h10 with ⟨h, h'⟩ | ⟨h, h'⟩
  · have ha : (14 - (m + 3 - 12 * (m / 10))) / 12 = 0 := by omega
    rw [ha, h]
    have e1 : 100 * b + d - 4800 + 0 + 4800 - 0 = 100 * b + d := by ring
    have e2 : m + 3 - 12 * 0 + 12 * 0 - 3 = m := by ring
    rw [e1, e2, q100, q4, q400]; omega
  · have ha : (14 - (m + 3 - 12 * (m / 10))) / 12 = 1 := by omega
    rw [ha, h]
    have e1 : 100 * b + d - 4800 + 1 + 4800 - 1 = 100 * b + d := by ring
    have e2 : m + 3 - 12 * 1 + 12 * 1 - 3 = m := by ring
    rw [e1, e2, q100, q4, q400]; omega

/-- The date of a Julian day written with the century `b`, the year of the
century `d`, the day `e` of the year counted from March and its month `m`. -/
theorem getDate_decompose (jd : Int) :
    ∃ b d e m : Int, 0 ≤ d ∧ d ≤ 99 ∧ 0 ≤ e ∧ e ≤ 365 ∧ 0 ≤ m ∧ m ≤ 11 ∧
      m = (5 * e + 2) / 153 ∧
      jd + 32044 = 36524 * b + b / 4 + 365 * d + d / 4 + e ∧
      b = (4 * (jd + 32044) + 3) / 146097 ∧
      (getDateFromJulianDay jd).day = e - (153 * m + 2) / 5 + 1 ∧
      (getDateFromJulianDay jd).month = m + 3 - 12 * (m / 10) ∧
      (getDateFromJulianDay jd).year =
        (if 100 * b + d - 4800 + m / 10 ≤ 0 then 100 * b + d - 4800 + m / 10 - 1
          else 100 * b + d - 4800 + m / 10) := by
  obtain ⟨h1, h2, h3, h4, h5, h6, h7⟩ :=
    getDate_core (jd + 32044) _ _ _ _ _ rfl rfl rfl rfl rfl
  exact ⟨_, _, _, _, h1, h2, h3, h4, h5, h6, rfl, h7, rfl, rfl, rfl, rfl⟩

/-- Month and day of a Julian day are a month and a day, and the year is
not 0. -/
theorem getDate_bounds (jd : Int) :
    1 ≤ (getDateFromJulianDay jd).month ∧ (getDateFromJulianDay jd).month ≤ 12 ∧
    1 ≤ (getDateFromJulianDay jd).day ∧ (getDateFromJulianDay jd).day ≤ 31 ∧
    (getDateFromJulianDay jd).year ≠ 0 := by
  obtain ⟨b, d, e, m, hd0, hd1, he0, he1, hm0, hm1, hm, hjd, hb, hday, hmonth, hyear⟩ :=
    getDate_decompose jd
  rw [hday, hmonth, hyear]
  have h10 : m / 10 = 0 ∧ m ≤ 9 ∨ m / 10 = 1 ∧ 10 ≤ m := by omega
  rcases h10 with ⟨h, h'⟩ | ⟨h, h'⟩ <;> rw [h] <;>
    refine ⟨by omega, by omega, by omega, by omega, ?_⟩ <;> split_ifs <;> omega

/-- Converting a Julian day to a date and back gives the Julian day. -/
theorem julianDayFromDate_getDate (jd : Int) :
    julianDayFromDate (getDateFromJulianDay jd).year (getDateFromJulianDay jd).month
      (getDateFromJulianDay jd).day = jd := by
  obtain ⟨b, d, e, m, hd0, hd1, he0, he1, hm0, hm1, hm, hjd, hb, hday, hmonth, hyear⟩ :=
    getDate_decompose jd
  rw [julianDayFromDate_march _ _ _ b d m hm0 hm1 hd0 hd1 hmonth
    (by rw [hyear]; split_ifs <;> omega), hday]
  omega

/-- The Julian day is the Julian day of day 1 of the month plus the day of
the month less one. -/
theorem julianDayFromDate_day (Y M D : Int) :
    julianDayFromDate Y M D = julianDayFromDate Y M 1 + (D - 1) := by
  simp only [julianDayFromDate]; ring

/-- Day 1 of a month of a year other than 0 converts to a Julian day and
back to itself. -/
theorem getDate_julianDayFromDate_first (Y M : Int) (hY : Y ≠ 0) (hM1 : 1 ≤ M)
    (hM2 : M ≤ 12) :
    getDateFromJulianDay (julianDayFromDate Y M 1) = ⟨Y, M, 1⟩ := by
  -- the year counted from March, split into century and year of the century
  obtain ⟨A, m, hA, hm0, hm1, hMm⟩ : ∃ A m : Int, (A = 0 ∧ m ≤ 9 ∨ A = 1 ∧ 10 ≤ m) ∧
      0 ≤ m ∧ m ≤ 11 ∧ M = m + 3 - 12 * A := by
    by_cases h : M ≤ 2
    · exact ⟨1, M + 9, by omega, by omega, by omega, by omega⟩
    · exact ⟨0, M - 3, by omega, by omega, by omega, by omega⟩
  have hA10 : m / 10 = A := by omega
  set Y' : Int := (if Y < 0 then Y + 1 else Y) + 4800 - A with hY'
  obtain ⟨b, d, hd0, hd1, hbd⟩ : ∃ b d : Int, 0 ≤ d ∧ d ≤ 99 ∧ Y' = 100 * b + d :=
    ⟨Y' / 100, Y' % 100, by omega, by omega, by omega⟩
  have hJ := julianDayFromDate_march Y M 1 b d m hm0 hm1 hd0 hd1 (by rw [hA10]; exact hMm)
    (by rw [hA10]; omega)
  obtain ⟨E, hE⟩ : ∃ E : Int, E = (153 * m + 2) / 5 := ⟨_, rfl⟩
  have hE0 : 0 ≤ E ∧ E ≤ 337 := by omega
  rw [hJ, ← hE]
  simp only [getDateFromJulianDay]
  have ha : 1 + E + 36524 * b + b / 4 + 365 * d + d / 4 - 32045 + 32044
      = 36524 * b + b / 4 + 365 * d + d / 4 + E := by ring
  rw [ha]
  have hb' : (4 * (36524 * b + b / 4 + 365 * d + d / 4 + E) + 3) / 146097 = b := by omega
  rw [hb']
  have hc' : 36524 * b + b / 4 + 365 * d + d / 4 + E - 146097 * b / 4
      = 365 * d + d / 4 + E := by omega
  rw [hc']
  have hd' : (4 * (365 * d + d / 4 + E) + 3) / 1461 = d := by omega
  rw [hd']
  have he' : 365 * d + d / 4 + E - 1461 * d / 4 = E := by omega
  rw [he']
  have hm' : (5 * E + 2) / 153 = m := by omega
  rw [hm', ← hE, hA10]
  have hyr : (if 100 * b + d - 4800 + A ≤ 0 then 100 * b + d - 4800 + A - 1
      else 100 * b + d - 4800 + A) = Y := by
    split_ifs <;> omega
  rw [hyr]
  congr 1 <;> omega

/-- Day 1 of the month of a Julian day lies `day - 1` days before it. -/
theorem julianDayFromDate_first_of_getDate (jd : Int) :
    julianDayFromDate (getDateFromJulianDay jd).year (getDateFromJulianDay jd).month 1
      = jd - ((getDateFromJulianDay jd).day - 1) := by
  have h := julianDayFromDate_getDate jd
  rw [julianDayFromDate_day] at h
  omega

/-- January 1 is not later than day 1 of any month of the same year. -/
theorem julianDayFromDate_jan_le (Y M : Int) (hM1 : 1 ≤ M) (hM2 : M ≤ 12) :
    julianDayFromDate Y 1 1 ≤ julianDayFromDate Y M 1 := by
  simp only [julianDayFromDate]
  generalize (if Y < 0 then Y + 1 else Y) = y
  have h1 : (14 - (1 : Int)) / 12 = 1 := by decide
  rw [h1]
  by_cases h : M ≤ 2
  · have ha : (14 - M) / 12 = 1 := by omega
    rw [ha]; omega
  · have ha : (14 - M) / 12 = 0 := by omega
    rw [ha]; omega

/-- The year of a Julian day within the range of `QDate` fits an `int`. -/
theorem getDate_year_range (jd : Int) (h1 : QDate.minJd ≤ jd) (h2 : jd ≤ QDate.maxJd) :
    -2147483648 ≤ (getDateFromJulianDay jd).year ∧
      (getDateFromJulianDay jd).year ≤ 2147483647 := by
  obtain ⟨b, d, e, m, hd0, hd1, he0, he1, hm0, hm1, hm, hjd, hb, hday, hmonth, hyear⟩ :=
    getDate_decompose jd
  simp only [QDate.minJd, QDate.maxJd] at h1 h2
  rw [hyear]
  have h10 : m / 10 = 0 ∧ m ≤ 9 ∨ m / 10 = 1 ∧ 10 ≤ m := by omega
  split_ifs <;> omega

/-- A Julian day of a year after 100000 is positive. -/
theorem getDate_pos_of_year (jd : Int) (h : 100000 < (getDateFromJulianDay jd).year) :
    1000 < jd := by
  obtain ⟨b, d, e, m, hd0, hd1, he0, he1, hm0, hm1, hm, hjd, hb, hday, hmonth, hyear⟩ :=
    getDate_decompose jd
  rw [hyear] at h
  have h10 : m / 10 = 0 ∧ m ≤ 9 ∨ m / 10 = 1 ∧ 10 ≤ m := by omega
  split_ifs at h <;> omega


/-- Truncating division by a positive number, by cases on the sign. -/
theorem tdiv_pos_cases (a b : Int) (hb : 0 < b) :
    Int.tdiv a b = if 0 ≤ a then a / b else -((-a) / b) := by
  split
  · exact Int.tdiv_eq_ediv (by omega) (by omega)
  · rw [show a = -(-a) by omega, Int.neg_tdiv, Int.tdiv_eq_ediv (by omega) (by omega)]
    simp

/-- Truncating remainder by a positive number, by cases on the sign. -/
theorem tmod_pos_cases (a b : Int) (hb : 0 < b) :
    Int.tmod a b = if 0 ≤ a then a % b else -((-a) % b) := by
  have h1 := Int.tmod_add_tdiv a b
  have h2 := tdiv_pos_cases a b hb
  have h3 := Int.emod_add_ediv a b
  have h4 := Int.emod_add_ediv (-a) b
  split
  · rename_i h; rw [if_pos h] at h2; rw [h2] at h1; omega
  · rename_i h; rw [if_neg h] at h2; rw [h2] at h1
    have : b * -(-a / b) = -(b * (-a / b)) := by ring
    omega

/-- The century correction of `qwtToJulianDay` agrees with the leap-year
count of the Gregorian calendar. -/
theorem qwtToJulianDay_core (y : Int) :
    1461 * y / 4 - 3 * ((y + 100) / 100) / 4 = 365 * y + y / 4 - y / 100 + y / 400 := by
  have h1 : 1461 * y / 4 = 365 * y + y / 4 := by omega
  have h2 : (y + 100) / 100 = y / 100 + 1 := by omega
  have h3 : y / 400 = (y / 100) / 4 := by omega
  rw [h1, h2, h3]; omega

/-- The month terms of `qwtToJulianDay`: `m1` is minus the shift of the
year, and `m2` is the day count of Qt plus 30. -/
theorem qwtToJulianDay_month (M : Int) (hM1 : 1 ≤ M) (hM2 : M ≤ 12) :
    Int.tdiv (M - 14) 12 = -((14 - M) / 12) ∧
      Int.tdiv (367 * (M - 2 - 12 * Int.tdiv (M - 14) 12)) 12
        = (153 * (M + 12 * ((14 - M) / 12) - 3) + 2) / 5 + 30 := by
  interval_cases M <;> decide

/-- Without wraparound `qwtToJulianDay` is the Julian day of Qt. -/
theorem qwtToJulianDay_eq (Y M D : Int) (hY0 : 0 < Y)
    (hY1 : Y + 4800 - (14 - M) / 12 ≤ 2147483647) (hM1 : 1 ≤ M) (hM2 : M ≤ 12) :
    qwtToJulianDay Y M D = julianDayFromDate Y M D := by
  obtain ⟨h1, h2⟩ := qwtToJulianDay_month M hM1 hM2
  simp only [qwtToJulianDay, julianDayFromDate]
  rw [h2, h1, if_neg (by omega)]
  have ha : (14 - M) / 12 = 0 ∨ (14 - M) / 12 = 1 := by omega
  generalize (14 - M) / 12 = a at *
  generalize (153 * (M + 12 * a - 3) + 2) / 5 = E
  have hw : wrapInt (wrapInt (Y + 4800) + -a) = Y + 4800 - a := by
    simp only [wrapInt]; omega
  rw [hw]
  have hc := qwtToJulianDay_core (Y + 4800 - a)
  have e1 : 4900 + Y + -a = Y + 4800 - a + 100 := by ring
  rw [e1]
  omega

/-- Where `year + 4800 + m1` wraps around, the result of `qwtToJulianDay`
lies below the least Julian day. -/
theorem qwtToJulianDay_wrap (Y M D : Int) (hY0 : 2147483647 < Y + 4800 - (14 - M) / 12)
    (hY1 : Y ≤ 2147483647) (hM1 : 1 ≤ M) (hM2 : M ≤ 12) (hD2 : D ≤ 31) :
    qwtToJulianDay Y M D < TimeDate.minJulianDay := by
  obtain ⟨h1, h2⟩ := qwtToJulianDay_month M hM1 hM2
  simp only [qwtToJulianDay, TimeDate.minJulianDay]
  rw [h2, h1]
  have ha : (14 - M) / 12 = 0 ∨ (14 - M) / 12 = 1 := by omega
  have hE : (153 * (M + 12 * ((14 - M) / 12) - 3) + 2) / 5 ≤ 337 := by
    rcases ha with h | h <;> rw [h] <;> omega
  generalize (14 - M) / 12 = a at *
  generalize (153 * (M + 12 * a - 3) + 2) / 5 = E at *
  have hw : wrapInt (wrapInt (Y + 4800) + -a) = Y + 4800 - a - 4294967296 := by
    simp only [wrapInt]; omega
  rw [hw]
  omega

/-- Validity of a date as a range of Julian days. -/
theorem QDate_isValid_iff (d : QDate) :
    d.isValid = true ↔ -784350574879 ≤ d.jd ∧ d.jd ≤ 784354017364 := by
  simp [QDate.isValid, QDate.minJd, QDate.maxJd]

/-- A valid date is not null. -/
theorem QDate_isNull_eq_false (d : QDate) (h : d.isValid = true) : d.isNull = false := by
  simp [QDate.isNull, h]

/-- Validity of a time as a range of milliseconds. -/
theorem QTime_isValid_iff (t : QTime) :
    t.isValid = true ↔ 0 ≤ t.mds ∧ t.mds < 86400000 := by
  simp only [QTime.isValid, QTime.NullTime, MSECS_PER_DAY, Bool.and_eq_true, decide_eq_true_eq]
  omega

/-- Validity of a date-time as ranges of its Julian day and its milliseconds. -/
theorem QDateTime_isValid_iff (t : QDateTime) :
    t.isValid = true ↔ (-784350574879 ≤ t.date.jd ∧ t.date.jd ≤ 784354017364) ∧
      (0 ≤ t.time.mds ∧ t.time.mds < 86400000) := by
  simp only [QDateTime.isValid, Bool.and_eq_true, QDate_isValid_iff, QTime_isValid_iff]

/-- Midnight as constructed by `QTime(0, 0, 0)`. -/
theorem QTime_ofHMS_zero : QTime.ofHMS 0 0 0 0 = ⟨0⟩ := by decide

/-- Hour, minute, second and millisecond of a valid time. -/
theorem QTime_fields (t : QTime) (h : t.isValid = true) :
    t.hour = t.mds / 3600000 ∧ t.minute = t.mds % 3600000 / 60000 ∧
      t.second = t.mds / 1000 % 60 ∧ t.msec = t.mds % 1000 := by
  have hv := (QTime_isValid_iff t).1 h
  have hds : t.ds = t.mds := by
    simp only [QTime.ds, QTime.NullTime]; rw [if_neg (by omega)]
  simp only [QTime.hour, QTime.minute, QTime.second, QTime.msec, h, hds, MSECS_PER_HOUR,
    MSECS_PER_MIN, Bool.not_true, Bool.false_eq_true, if_false]
  refine ⟨?_, ?_, ?_, ?_⟩
  · rw [tdiv_pos_cases _ _ (by omega), if_pos (by omega)]
  · rw [tmod_pos_cases _ _ (by omega), if_pos (by omega), tdiv_pos_cases _ _ (by omega),
      if_pos (by omega)]
  · rw [tdiv_pos_cases _ _ (by omega), if_pos (by omega), tmod_pos_cases _ _ (by omega),
      if_pos (by omega)]
  · rw [tmod_pos_cases _ _ (by omega), if_pos (by omega)]

/-- The time `QTime(h, m, s, 0)` built from the fields of a valid time. -/
theorem QTime_ofHMS_second (t : QTime) (h : t.isValid = true) :
    QTime.ofHMS t.hour t.minute t.second 0 = ⟨t.mds - t.mds % 1000⟩ := by
  have hv := (QTime_isValid_iff t).1 h
  obtain ⟨h1, h2, h3, -⟩ := QTime_fields t h
  rw [h1, h2, h3]
  have hok : QTime.isValidHMS (t.mds / 3600000) (t.mds % 3600000 / 60000)
      (t.mds / 1000 % 60) 0 = true := by
    simp only [QTime.isValidHMS, Bool.and_eq_true, decide_eq_true_eq]; omega
  simp only [QTime.ofHMS, hok, if_true]
  congr 1; omega

/-- The time `QTime(h, m, 0, 0)` built from the fields of a valid time. -/
theorem QTime_ofHMS_minute (t : QTime) (h : t.isValid = true) :
    QTime.ofHMS t.hour t.minute 0 0 = ⟨t.mds - t.mds % 60000⟩ := by
  have hv := (QTime_isValid_iff t).1 h
  obtain ⟨h1, h2, -, -⟩ := QTime_fields t h
  rw [h1, h2]
  have hok : QTime.isValidHMS (t.mds / 3600000) (t.mds % 3600000 / 60000) 0 0 = true := by
    simp only [QTime.isValidHMS, Bool.and_eq_true, decide_eq_true_eq]; omega
  simp only [QTime.ofHMS, hok, if_true]
  congr 1; omega

/-- The time `QTime(h, 0, 0, 0)` built from the fields of a valid time. -/
theorem QTime_ofHMS_hour (t : QTime) (h : t.isValid = true) :
    QTime.ofHMS t.hour 0 0 0 = ⟨t.mds - t.mds % 3600000⟩ := by
  have hv := (QTime_isValid_iff t).1 h
  obtain ⟨h1, -, -, -⟩ := QTime_fields t h
  rw [h1]
  have hok : QTime.isValidHMS (t.mds / 3600000) 0 0 0 = true := by
    simp only [QTime.isValidHMS, Bool.and_eq_true, decide_eq_true_eq]; omega
  simp only [QTime.ofHMS, hok, if_true]
  congr 1; omega

/-- Year, month and day of a valid date are those of its Julian day. -/
theorem QDate_fields (d : QDate) (h : d.isValid = true) :
    d.year = (getDateFromJulianDay d.jd).year ∧ d.month = (getDateFromJulianDay d.jd).month ∧
      d.day = (getDateFromJulianDay d.jd).day := by
  simp [QDate.year, QDate.month, QDate.day, QDate.isNull, h]

/-- Day 1 of a month of a year other than 0 is a valid triple. -/
theorem QDate_isValidYMD_first (Y M : Int) (hY : Y ≠ 0) (hM1 : 1 ≤ M) (hM2 : M ≤ 12) :
    QDate.isValidYMD Y M 1 = true := by
  have hmd : 1 ≤ QDate.monthDays M := by
    simp only [QDate.monthDays]; split_ifs <;> omega
  simp only [QDate.isValidYMD, if_neg hY, Bool.and_eq_true, Bool.or_eq_true, decide_eq_true_eq]
  exact ⟨⟨⟨by omega, by omega⟩, hM2⟩, Or.inl hmd⟩

/-- The weekday of a valid date is one of 1 to 7 and is congruent to its
Julian day plus one. -/
theorem QDate_dayOfWeek_spec (d : QDate) (h : d.isValid = true) :
    d.dayOfWeek = d.jd % 7 + 1 := by
  simp only [QDate.dayOfWeek, QDate.isNull, h, Bool.not_true, Bool.false_eq_true, if_false]
  by_cases h0 : d.jd ≥ 0
  · rw [if_pos h0, tmod_pos_cases _ 7 (by omega), if_pos (show (0 : Int) ≤ d.jd from h0)]
  · rw [if_neg h0, tmod_pos_cases _ 7 (by omega)]
    split_ifs <;> omega


/-- The date `qwtToDate` builds for day 1 of the month of a valid date:
`day - 1` days before the date, or the null date where the `int` sum of
`qwtToJulianDay` wraps around. -/
theorem qwtToDate_month_first (d : QDate) (h : d.isValid = true) :
    qwtToDate d.year d.month 1 =
      if d.year + 4800 - (14 - d.month) / 12 ≤ 2147483647 then ⟨d.jd - (d.day - 1)⟩
      else QDate.null := by
  obtain ⟨hy, hm, hd⟩ := QDate_fields d h
  have hv := (QDate_isValid_iff d).1 h
  obtain ⟨b1, b2, b3, b4, b5⟩ := getDate_bounds d.jd
  obtain ⟨r1, r2⟩ := getDate_year_range d.jd hv.1 hv.2
  have hJ := julianDayFromDate_first_of_getDate d.jd
  have hpos : 100000 < (getDateFromJulianDay d.jd).year → 1000 < d.jd :=
    getDate_pos_of_year d.jd
  rw [hy, hm, hd]
  generalize (getDateFromJulianDay d.jd).year = Y at *
  generalize (getDateFromJulianDay d.jd).month = M at *
  generalize (getDateFromJulianDay d.jd).day = D at *
  simp only [qwtToDate]
  by_cases hbig : Y > 100000
  · rw [if_pos hbig]
    by_cases hw : Y + 4800 - (14 - M) / 12 ≤ 2147483647
    · rw [if_pos hw, qwtToJulianDay_eq Y M 1 (by omega) hw b1 b2, hJ]
      have hpos := hpos hbig
      simp only [TimeDate.minJulianDay, TimeDate.maxJulianDay, QDate.fromJulianDay,
        QDate.minJd, QDate.maxJd]
      rw [if_neg (by omega), if_pos (by omega)]
    · rw [if_neg hw]
      have := qwtToJulianDay_wrap Y M 1 (by omega) r2 b1 b2 (by omega)
      rw [if_pos (Or.inl this)]
  · rw [if_neg hbig, if_pos (by omega)]
    simp only [QDate.ofYMD, QDate_isValidYMD_first Y M b5 b1 b2, if_true, hJ]

/-- The date `qwtToDate` builds for January 1 of the year of a valid date. -/
theorem qwtToDate_year_first (d : QDate) (h : d.isValid = true) :
    qwtToDate d.year 1 1 =
      if d.year ≤ 2147478848 then ⟨julianDayFromDate d.year 1 1⟩ else QDate.null := by
  obtain ⟨hy, hm, hd⟩ := QDate_fields d h
  have hv := (QDate_isValid_iff d).1 h
  obtain ⟨b1, b2, b3, b4, b5⟩ := getDate_bounds d.jd
  obtain ⟨r1, r2⟩ := getDate_year_range d.jd hv.1 hv.2
  have hJ := julianDayFromDate_first_of_getDate d.jd
  have hle := julianDayFromDate_jan_le (getDateFromJulianDay d.jd).year
    (getDateFromJulianDay d.jd).month b1 b2
  rw [hy]
  have hpos : 100000 < (getDateFromJulianDay d.jd).year → 1000 < d.jd :=
    getDate_pos_of_year d.jd
  have hget := getDate_julianDayFromDate_first (getDateFromJulianDay d.jd).year 1 b5
    (by omega) (by omega)
  generalize (getDateFromJulianDay d.jd).year = Y at *
  generalize (getDateFromJulianDay d.jd).month = M at *
  generalize (getDateFromJulianDay d.jd).day = D at *
  simp only [qwtToDate]
  by_cases hbig : Y > 100000
  · rw [if_pos hbig]
    by_cases hw : Y ≤ 2147478848
    · rw [if_pos hw, qwtToJulianDay_eq Y 1 1 (by omega) (by omega) (by omega) (by omega)]
      have hp := getDate_pos_of_year (julianDayFromDate Y 1 1) (by rw [hget]; exact hbig)
      simp only [TimeDate.minJulianDay, TimeDate.maxJulianDay, QDate.fromJulianDay,
        QDate.minJd, QDate.maxJd]
      rw [if_neg (by omega), if_pos (by omega)]
    · rw [if_neg hw]
      have := qwtToJulianDay_wrap Y 1 1 (by omega) r2 (by omega) (by omega) (by omega)
      rw [if_pos (Or.inl this)]
  · rw [if_neg hbig, if_pos (by omega)]
    simp only [QDate.ofYMD, QDate_isValidYMD_first Y 1 b5 (by omega) (by omega), if_true]

/-- Julian day of the minimum date. -/
theorem minDate_jd : TimeDate.minDate.jd = -784350574879 := by decide

/-- Setting date and time of a default-constructed `QDateTime`. -/
theorem QDateTime_setDate_setTime (dt : QDateTime) (d : QDate) (t : QTime) :
    (dt.setDate d).setTime t = ⟨d, t⟩ := rfl

/-- The date-time `QDateTime(date, QTime(0, 0, 0))` keeps midnight. -/
theorem QDateTime_ofDateTime_midnight (d : QDate) :
    QDateTime.ofDateTime d ⟨0⟩ = ⟨d, ⟨0⟩⟩ := by
  have h0 : QTime.isValid ⟨0⟩ = true := by decide
  simp [QDateTime.ofDateTime, h0]

/-- The result of `qwtFloorDate` for each granularity, for a valid
date-time after the minimum date. -/
theorem qwtFloorDate_cases (locale : QLocale) (t : QDateTime) (hv : t.isValid = true)
    (hmin : TimeDate.minDate.jd < t.date.jd) :
    qwtFloorDate locale t TimeDate.Millisecond = t ∧
    qwtFloorDate locale t TimeDate.Second = ⟨t.date, ⟨t.time.mds - t.time.mds % 1000⟩⟩ ∧
    qwtFloorDate locale t TimeDate.Minute = ⟨t.date, ⟨t.time.mds - t.time.mds % 60000⟩⟩ ∧
    qwtFloorDate locale t TimeDate.Hour = ⟨t.date, ⟨t.time.mds - t.time.mds % 3600000⟩⟩ ∧
    qwtFloorDate locale t TimeDate.Day = ⟨t.date, ⟨0⟩⟩ ∧
    qwtFloorDate locale t TimeDate.Week =
      ⟨QDate.fromJulianDay
        (t.date.jd - (t.date.jd % 7 + 1 - locale.firstDayOfWeek.toInt) % 7), ⟨0⟩⟩ ∧
    qwtFloorDate locale t TimeDate.Month =
      ⟨if t.date.year + 4800 - (14 - t.date.month) / 12 ≤ 2147483647
        then ⟨t.date.jd - (t.date.day - 1)⟩ else QDate.null, ⟨0⟩⟩ ∧
    qwtFloorDate locale t TimeDate.Year =
      ⟨if t.date.year ≤ 2147478848 then ⟨julianDayFromDate t.date.year 1 1⟩
        else QDate.null, ⟨0⟩⟩ := by
  have hvd : t.date.isValid = true := by
    simp only [QDateTime.isValid, Bool.and_eq_true] at hv; exact hv.1
  have hvt : t.time.isValid = true := by
    simp only [QDateTime.isValid, Bool.and_eq_true] at hv; exact hv.2
  have hg : ¬ t.date.jd ≤ TimeDate.minDate.jd := by omega
  refine ⟨?_, ?_, ?_, ?_, ?_, ?_, ?_, ?_⟩
  · simp [qwtFloorDate, TimeDate.Millisecond]
  · simp only [qwtFloorDate, if_neg hg, TimeDate.Millisecond, TimeDate.Second,
      QDateTime_setDate_setTime, QTime_ofHMS_second _ hvt]
    simp
  · simp only [qwtFloorDate, if_neg hg, TimeDate.Millisecond, TimeDate.Second, TimeDate.Minute,
      QDateTime_setDate_setTime, QTime_ofHMS_minute _ hvt]
    simp
  · simp only [qwtFloorDate, if_neg hg, TimeDate.Millisecond, TimeDate.Second, TimeDate.Minute,
      TimeDate.Hour, QDateTime_setDate_setTime, QTime_ofHMS_hour _ hvt]
    simp
  · simp only [qwtFloorDate, if_neg hg, TimeDate.Millisecond, TimeDate.Second, TimeDate.Minute,
      TimeDate.Hour, TimeDate.Day, QDateTime.ofDate, QTime_ofHMS_zero]
    simp
  · have hdow := QDate_dayOfWeek_spec t.date hvd
    have hf : 1 ≤ locale.firstDayOfWeek.toInt ∧ locale.firstDayOfWeek.toInt ≤ 7 := by
      cases locale.firstDayOfWeek <;> decide
    simp only [qwtFloorDate, if_neg hg, TimeDate.Millisecond, TimeDate.Second, TimeDate.Minute,
      TimeDate.Hour, TimeDate.Day, TimeDate.Week, QDateTime.ofDate, QTime_ofHMS_zero,
      QDateTime.addDays, QDate.addDays, QDate_isNull_eq_false _ hvd, qwtFirstDayOfWeek, hdow,
      QDateTime_ofDateTime_midnight]
    norm_num
    congr 1
    split_ifs <;> omega
  · simp only [qwtFloorDate, if_neg hg, TimeDate.Millisecond, TimeDate.Second, TimeDate.Minute,
      TimeDate.Hour, TimeDate.Day, TimeDate.Week, TimeDate.Month, QDateTime.ofDate,
      QTime_ofHMS_zero, qwtToDate_month_first _ hvd]
    norm_num
  · simp only [qwtFloorDate, if_neg hg, TimeDate.Millisecond, TimeDate.Second, TimeDate.Minute,
      TimeDate.Hour, TimeDate.Day, TimeDate.Week, TimeDate.Month, TimeDate.Year,
      QDateTime.ofDate, QTime_ofHMS_zero, qwtToDate_year_first _ hvd]
    norm_num

/-- A Julian day below the range of `QDate` has a year below the range of
`int`. -/
theorem getDate_year_lt (jd : Int) (h : jd < QDate.minJd) :
    (getDateFromJulianDay jd).year < -2147483648 := by
  obtain ⟨b, d, e, m, hd0, hd1, he0, he1, hm0, hm1, hm, hjd, hb, hday, hmonth, hyear⟩ :=
    getDate_decompose jd
  simp only [QDate.minJd] at h
  rw [hyear]
  have h10 : m / 10 = 0 ∧ m ≤ 9 ∨ m / 10 = 1 ∧ 10 ≤ m := by omega
  split_ifs <;> omega

/-- Criterion for `operator<=` of two date-times. -/
theorem QDateTime_le_of (r t : QDateTime) (h1 : r.date.jd ≤ t.date.jd)
    (h2 : r.date = t.date → r.time.mds ≤ t.time.mds) : r.le t = true := by
  simp only [QDateTime.le, QDateTime.lt, Bool.not_eq_true', ne_eq]
  by_cases h : t.date = r.date
  · rw [if_neg (not_not.2 h)]
    have := h2 h.symm
    simp only [decide_eq_false_iff_not]; omega
  · rw [if_pos h]
    simp only [decide_eq_false_iff_not]; omega


/-- Day 1 of the month of a valid date is a valid date. -/
theorem first_of_month_valid (d : QDate) (h : d.isValid = true) :
    -784350574879 ≤ d.jd - (d.day - 1) ∧ d.jd - (d.day - 1) ≤ d.jd ∧
    getDateFromJulianDay (d.jd - (d.day - 1)) = ⟨d.year, d.month, 1⟩ := by
  obtain ⟨hy, hm, hd⟩ := QDate_fields d h
  have hv := (QDate_isValid_iff d).1 h
  obtain ⟨b1, b2, b3, b4, b5⟩ := getDate_bounds d.jd
  obtain ⟨r1, r2⟩ := getDate_year_range d.jd hv.1 hv.2
  have hJ := julianDayFromDate_first_of_getDate d.jd
  have hget := getDate_julianDayFromDate_first _ _ b5 b1 b2
  rw [hJ] at hget
  rw [hy, hm, hd]
  refine ⟨?_, by omega, hget⟩
  by_contra hlt
  have := getDate_year_lt (d.jd - ((getDateFromJulianDay d.jd).day - 1))
    (by simp only [QDate.minJd]; omega)
  rw [hget] at this
  simp only at this
  omega

/-- January 1 of the year of a valid date is a valid date. -/
theorem first_of_year_valid (d : QDate) (h : d.isValid = true) :
    -784350574879 ≤ julianDayFromDate d.year 1 1 ∧ julianDayFromDate d.year 1 1 ≤ d.jd ∧
    getDateFromJulianDay (julianDayFromDate d.year 1 1) = ⟨d.year, 1, 1⟩ := by
  obtain ⟨hy, hm, hd⟩ := QDate_fields d h
  have hv := (QDate_isValid_iff d).1 h
  obtain ⟨b1, b2, b3, b4, b5⟩ := getDate_bounds d.jd
  obtain ⟨r1, r2⟩ := getDate_year_range d.jd hv.1 hv.2
  have hJ := julianDayFromDate_first_of_getDate d.jd
  have hle := julianDayFromDate_jan_le (getDateFromJulianDay d.jd).year _ b1 b2
  have hget := getDate_julianDayFromDate_first (getDateFromJulianDay d.jd).year 1 b5
    (by omega) (by omega)
  rw [hy]
  refine ⟨?_, by omega, hget⟩
  by_contra hlt
  have := getDate_year_lt (julianDayFromDate (getDateFromJulianDay d.jd).year 1 1)
    (by simp only [QDate.minJd]; omega)
  rw [hget] at this
  simp only at this
  omega

/-- The eight granularities. -/
theorem intervalType_cases (T : Int) (hT : TimeDate.Millisecond ≤ T ∧ T ≤ TimeDate.Year) :
    T = TimeDate.Millisecond ∨ T = TimeDate.Second ∨ T = TimeDate.Minute ∨
      T = TimeDate.Hour ∨ T = TimeDate.Day ∨ T = TimeDate.Week ∨ T = TimeDate.Month ∨
      T = TimeDate.Year := by
  simp only [TimeDate.Millisecond, TimeDate.Second, TimeDate.Minute, TimeDate.Hour,
    TimeDate.Day, TimeDate.Week, TimeDate.Month, TimeDate.Year] at *
  omega

/-- A date-time at or before the minimum date is returned unchanged. -/
theorem qwtFloorDate_of_le_min (locale : QLocale) (t : QDateTime) (T : Int)
    (h : t.date.jd ≤ TimeDate.minDate.jd) : qwtFloorDate locale t T = t := by
  simp only [qwtFloorDate, if_pos h]

/-- Under `operator<=` the floor of a valid date-time after the minimum date
is not later than the date-time, at every granularity; a floor that carries
the null date compares below every date-time as well. -/
theorem qwtFloorDate_le (locale : QLocale) (t : QDateTime) (T : Int)
    (hT : TimeDate.Millisecond ≤ T ∧ T ≤ TimeDate.Year) (hv : t.isValid = true)
    (hmin : TimeDate.minDate.jd < t.date.jd) :
    (qwtFloorDate locale t T).le t = true := by
  obtain ⟨c0, c1, c2, c3, c4, c5, c6, c7⟩ := qwtFloorDate_cases locale t hv hmin
  obtain ⟨⟨hd1, hd2⟩, ht1, ht2⟩ := (QDateTime_isValid_iff t).1 hv
  have hvd : t.date.isValid = true := (QDate_isValid_iff _).2 ⟨hd1, hd2⟩
  rcases intervalType_cases T hT with h | h | h | h | h | h | h | h <;> subst h
  · rw [c0]; exact QDateTime_le_of _ _ (le_refl _) (fun _ => le_refl _)
  · rw [c1]; exact QDateTime_le_of _ _ (le_refl _) (fun _ => by simp only; omega)
  · rw [c2]; exact QDateTime_le_of _ _ (le_refl _) (fun _ => by simp only; omega)
  · rw [c3]; exact QDateTime_le_of _ _ (le_refl _) (fun _ => by simp only; omega)
  · rw [c4]; exact QDateTime_le_of _ _ (le_refl _) (fun _ => by simp only; omega)
  · rw [c5]
    refine QDateTime_le_of _ _ ?_ (fun _ => by simp only; omega)
    simp only [QDate.fromJulianDay, QDate.null, QDate.nullJd]
    split_ifs <;> simp only <;> omega
  · rw [c6]
    obtain ⟨f1, f2, -⟩ := first_of_month_valid t.date hvd
    refine QDateTime_le_of _ _ ?_ (fun _ => by simp only; omega)
    simp only [QDate.null, QDate.nullJd]
    split_ifs <;> simp only <;> omega
  · rw [c7]
    obtain ⟨f1, f2, -⟩ := first_of_year_valid t.date hvd
    refine QDateTime_le_of _ _ ?_ (fun _ => by simp only; omega)
    simp only [QDate.null, QDate.nullJd]
    split_ifs <;> simp only <;> omega

/-- Claim C6: `qwtFloorDate` is idempotent: for every granularity `T` and
every valid date-time `t`, flooring the floor again changes nothing. -/
theorem qwtFloorDate_idempotent (locale : QLocale) (t : QDateTime) (T : Int)
    (hT : TimeDate.Millisecond ≤ T ∧ T ≤ TimeDate.Year) (hv : t.isValid = true) :
    qwtFloorDate locale (qwtFloorDate locale t T) T = qwtFloorDate locale t T := by
  by_cases hmin : TimeDate.minDate.jd < t.date.jd
  swap
  · rw [qwtFloorDate_of_le_min locale t T (by omega),
      qwtFloorDate_of_le_min locale t T (by omega)]
  obtain ⟨c0, c1, c2, c3, c4, c5, c6, c7⟩ := qwtFloorDate_cases locale t hv hmin
  obtain ⟨⟨hd1, hd2⟩, ht1, ht2⟩ := (QDateTime_isValid_iff t).1 hv
  have hvd : t.date.isValid = true := (QDate_isValid_iff _).2 ⟨hd1, hd2⟩
  have hminjd := minDate_jd
  -- a result that is not after the minimum date is returned unchanged
  by_cases hr : (qwtFloorDate locale t T).date.jd ≤ TimeDate.minDate.jd
  · exact qwtFloorDate_of_le_min locale _ T hr
  rcases intervalType_cases T hT with h | h | h | h | h | h | h | h <;> subst h
  · rw [c0, c0]
  · rw [c1] at hr ⊢
    have hv' : QDateTime.isValid ⟨t.date, ⟨t.time.mds - t.time.mds % 1000⟩⟩ = true :=
      (QDateTime_isValid_iff _).2 ⟨⟨hd1, hd2⟩, by simp only; omega, by simp only; omega⟩
    rw [(qwtFloorDate_cases locale _ hv' (by simp only; omega)).2.1]
    simp only [QDateTime.mk.injEq, QTime.mk.injEq, true_and]; omega
  · rw [c2] at hr ⊢
    have hv' : QDateTime.isValid ⟨t.date, ⟨t.time.mds - t.time.mds % 60000⟩⟩ = true :=
      (QDateTime_isValid_iff _).2 ⟨⟨hd1, hd2⟩, by simp only; omega, by simp only; omega⟩
    rw [(qwtFloorDate_cases locale _ hv' (by simp only; omega)).2.2.1]
    simp only [QDateTime.mk.injEq, QTime.mk.injEq, true_and]; omega
  · rw [c3] at hr ⊢
    have hv' : QDateTime.isValid ⟨t.date, ⟨t.time.mds - t.time.mds % 3600000⟩⟩ = true :=
      (QDateTime_isValid_iff _).2 ⟨⟨hd1, hd2⟩, by simp only; omega, by simp only; omega⟩
    rw [(qwtFloorDate_cases locale _ hv' (by simp only; omega)).2.2.2.1]
    simp only [QDateTime.mk.injEq, QTime.mk.injEq, true_and]; omega
  · rw [c4] at hr ⊢
    have hv' : QDateTime.isValid ⟨t.date, ⟨0⟩⟩ = true :=
      (QDateTime_isValid_iff _).2 ⟨⟨hd1, hd2⟩, by simp only; omega, by simp only; omega⟩
    rw [(qwtFloorDate_cases locale _ hv' (by simp only; omega)).2.2.2.2.1]
  · rw [c5] at hr ⊢
    have hf : 1 ≤ locale.firstDayOfWeek.toInt ∧ locale.firstDayOfWeek.toInt ≤ 7 := by
      cases locale.firstDayOfWeek <;> decide
    simp only [QDate.fromJulianDay, QDate.null, QDate.nullJd, QDate.minJd, QDate.maxJd] at hr ⊢
    split_ifs at hr ⊢ with hin
    · simp only at hr
      have hv' : QDateTime.isValid
          ⟨⟨t.date.jd - (t.date.jd % 7 + 1 - locale.firstDayOfWeek.toInt) % 7⟩, ⟨0⟩⟩ = true :=
        (QDateTime_isValid_iff _).2 ⟨⟨by simp only; omega, by simp only; omega⟩,
          by simp only; omega, by simp only; omega⟩
      rw [(qwtFloorDate_cases locale _ hv' (by simp only; omega)).2.2.2.2.2.1]
      simp only [QDate.fromJulianDay, QDate.minJd, QDate.maxJd]
      have hz : ((t.date.jd - (t.date.jd % 7 + 1 - locale.firstDayOfWeek.toInt) % 7) % 7 + 1
          - locale.firstDayOfWeek.toInt) % 7 = 0 := by omega
      rw [hz, if_pos (by omega)]
      simp
    · simp only at hr; omega
  · rw [c6] at hr ⊢
    obtain ⟨f1, f2, f3⟩ := first_of_month_valid t.date hvd
    simp only [QDate.null, QDate.nullJd] at hr ⊢
    split_ifs at hr ⊢ with hin
    · simp only at hr
      have hvd' : QDate.isValid ⟨t.date.jd - (t.date.day - 1)⟩ = true :=
        (QDate_isValid_iff _).2 ⟨by simp only; omega, by simp only; omega⟩
      have hv' : QDateTime.isValid ⟨⟨t.date.jd - (t.date.day - 1)⟩, ⟨0⟩⟩ = true :=
        (QDateTime_isValid_iff _).2 ⟨⟨by simp only; omega, by simp only; omega⟩,
          by simp only; omega, by simp only; omega⟩
      rw [(qwtFloorDate_cases locale _ hv' (by simp only; omega)).2.2.2.2.2.2.1]
      obtain ⟨gy, gm, gd⟩ := QDate_fields _ hvd'
      simp only [f3] at gy gm gd
      simp only [gy, gm, gd, if_pos hin]
      simp
    · simp only at hr; omega
  · rw [c7] at hr ⊢
    obtain ⟨f1, f2, f3⟩ := first_of_year_valid t.date hvd
    simp only [QDate.null, QDate.nullJd] at hr ⊢
    split_ifs at hr ⊢ with hin
    · simp only at hr
      have hvd' : QDate.isValid ⟨julianDayFromDate t.date.year 1 1⟩ = true :=
        (QDate_isValid_iff _).2 ⟨by simp only; omega, by simp only; omega⟩
      have hv' : QDateTime.isValid ⟨⟨julianDayFromDate t.date.year 1 1⟩, ⟨0⟩⟩ = true :=
        (QDateTime_isValid_iff _).2 ⟨⟨by simp only; omega, by simp only; omega⟩,
          by simp only; omega, by simp only; omega⟩
      rw [(qwtFloorDate_cases locale _ hv' (by simp only; omega)).2.2.2.2.2.2.2]
      obtain ⟨gy, -, -⟩ := QDate_fields _ hvd'
      simp only [f3] at gy
      simp only [gy, if_pos hin]
    · simp only at hr; omega

/-- A whole number below `2^53` in absolute value is a `double`. -/
theorem roundDouble_eq (x : Int) (h : -9007199254740992 < x ∧ x < 9007199254740992) :
    roundDouble x = x := by
  have : x.natAbs < 2 ^ 53 := by omega
  simp only [roundDouble, if_pos this]

/-- The binary logarithm of a number below `2^(k+1)` is at most `k`. -/
theorem log2Fuel_le (fuel n k : Nat) (h : n < 2 ^ (k + 1)) : log2Fuel fuel n ≤ k := by
  induction fuel generalizing n k with
  | zero => simp [log2Fuel]
  | succ f ih =>
    simp only [log2Fuel]
    split_ifs with h2
    · omega
    · cases k with
      | zero => simp at h; omega
      | succ k =>
        have : n / 2 < 2 ^ (k + 1) := by
          rw [Nat.div_lt_iff_lt_mul (by omega)]
          calc n < 2 ^ (k + 1 + 1) := h
            _ = 2 ^ (k + 1) * 2 := by ring
        have := ih (n / 2) k this
        omega

/-- Rounding the quotient scaled by `P` and dividing by `P` again gives the
whole part of the quotient, as long as the divisor is below `2 * P`. -/
theorem roundHalfEven_div (a n P : Nat) (hn : 0 < n) (hP : n < 2 * P) :
    roundHalfEven (a * P) n / P = a / n := by
  have hP0 : 0 < P := by omega
  have h1 := Nat.div_add_mod (a * P) n
  have h2 := Nat.div_add_mod a n
  have h3 := Nat.mod_lt (a * P) hn
  have h4 := Nat.mod_lt a hn
  set f := a * P / n
  set r := a * P % n
  set Q := a / n
  set R := a % n
  have haP : a * P = n * Q * P + R * P := by rw [← h2]; ring
  have hRP : R * P + P ≤ n * P := by
    have : (R + 1) * P ≤ n * P := Nat.mul_le_mul_right P (by omega)
    linarith
  have hlow : Q * P ≤ f := by
    rw [Nat.le_div_iff_mul_le hn]
    nlinarith
  have hf : f < (Q + 1) * P := by
    rw [Nat.div_lt_iff_lt_mul hn]
    nlinarith
  have hup : 2 * r ≥ n → f + 1 < (Q + 1) * P := by
    intro hr
    by_contra hc
    have hge : (Q + 1) * P ≤ f + 1 := by omega
    have hmul : (Q + 1) * P * n ≤ (f + 1) * n := Nat.mul_le_mul_right n hge
    nlinarith
  have hres : Q * P ≤ roundHalfEven (a * P) n ∧ roundHalfEven (a * P) n < (Q + 1) * P := by
    simp only [roundHalfEven]
    split_ifs with c1 c2 c3
    · exact ⟨hlow, hf⟩
    · exact ⟨by omega, hup (by omega)⟩
    · exact ⟨hlow, hf⟩
    · exact ⟨by omega, hup (by omega)⟩
  exact Nat.div_eq_of_lt_le hres.1 hres.2

/-- The binary logarithm of the number of milliseconds per day. -/
theorem ilog2_msecsPerDay : ilog2 86400000 = 26 := by decide

/-- Below `2^53` the conversion `static_cast<qint64>( value / s_msecsPerDay )`
is the truncated quotient of the whole numbers. -/
theorem truncQuotDouble_msecsPerDay (t : Int)
    (h : -9007199254740992 < t ∧ t < 9007199254740992) :
    truncQuotDouble t 86400000 = Int.tdiv t 86400000 := by
  rw [tdiv_pos_cases t 86400000 (by omega)]
  by_cases h0 : t = 0
  · subst h0; decide
  have ha : t.natAbs < 2 ^ (52 + 1) := by omega
  have hl : ilog2 t.natAbs ≤ 52 := log2Fuel_le _ _ 52 ha
  have hm : (86400000 : Int).natAbs = 86400000 := by decide
  have he : quotExponent t.natAbs 86400000 ≤ 26 := by
    simp only [quotExponent, ilog2_msecsPerDay]
    split_ifs <;> omega
  simp only [truncQuotDouble, hm]
  rw [if_neg (by omega)]
  generalize quotExponent t.natAbs 86400000 = e at he
  have hs : 0 ≤ 52 - e := by omega
  rw [if_pos hs]
  have hP : 86400000 < 2 * 2 ^ (52 - e).toNat := by
    have h26 : 26 ≤ (52 - e).toNat := by omega
    have : 2 ^ 26 ≤ 2 ^ (52 - e).toNat := Nat.pow_le_pow_right (by omega) h26
    omega
  rw [roundHalfEven_div _ _ _ (by omega) hP]
  by_cases hpos : 0 < t
  · rw [if_pos (Or.inl ⟨hpos, by omega⟩), if_pos (by omega)]
    omega
  · rw [if_neg (by omega), if_neg (by omega)]
    omega

/-- Julian day of 1970-01-01. -/
theorem s_julianDay0_eq : s_julianDay0 = 2440588 := by decide

/-- Claim C4 as amended: for every whole-number millisecond timestamp `t`
with `|t| ≤ 2^53 - 86400000`, converting to a calendar value and back
yields `t`. -/
theorem qwtFromDateTime_qwtToDateTime (t : Int)
    (h : -9007199168340992 ≤ t ∧ t ≤ 9007199168340992) :
    qwtFromDateTime (qwtToDateTime t) = t := by
  have hq := tdiv_pos_cases t 86400000 (by omega)
  have htq := truncQuotDouble_msecsPerDay t (by omega)
  obtain ⟨q, hqdef⟩ : ∃ q : Int, q = Int.tdiv t 86400000 := ⟨_, rfl⟩
  rw [← hqdef] at hq htq
  have hq' : (0 ≤ t → q = t / 86400000) ∧ (t < 0 → q = -((-t) / 86400000)) := by
    constructor
    · intro h0; rw [hq, if_pos h0]
    · intro h0; rw [hq, if_neg (by omega)]
  clear hq hqdef
  -- the calendar value
  have hto : qwtToDateTime t
      = ⟨⟨2440588 + q + (t - q * 86400000) / 86400000⟩, ⟨(t - q * 86400000) % 86400000⟩⟩ := by
    simp only [qwtToDateTime, qwtToTimeSpec, s_msecsPerDay, htq, s_julianDay0_eq,
      TimeDate.maxJulianDay, TimeDate.minJulianDay]
    rw [roundDouble_eq q (by omega), roundDouble_eq (2440588 + q) (by omega),
      if_neg (by omega), roundDouble_eq (q * 86400000) (by omega),
      roundDouble_eq (t - q * 86400000) (by omega)]
    have hd : QDate.fromJulianDay (2440588 + q) = ⟨2440588 + q⟩ := by
      simp only [QDate.fromJulianDay, QDate.minJd, QDate.maxJd]
      rw [if_pos (by omega)]
    have hdv : QDate.isValid ⟨2440588 + q⟩ = true :=
      (QDate_isValid_iff _).2 ⟨by simp only; omega, by simp only; omega⟩
    rw [hd]
    simp only [hdv, Bool.not_true, Bool.false_eq_true, if_false]
    have hv : (QDateTime.ofDate ⟨2440588 + q⟩).isValid = true := by
      rw [QDateTime.ofDate, QTime_ofHMS_zero]
      exact (QDateTime_isValid_iff _).2 ⟨⟨by simp only; omega, by simp only; omega⟩,
        by simp only; omega, by simp only; omega⟩
    simp only [QDateTime.addMSecs, hv, Bool.not_true, Bool.false_eq_true, if_false,
      MSECS_PER_DAY]
    simp only [QDateTime.ofDate, QTime_ofHMS_zero, QTime.ds, QTime.NullTime]
    rw [if_neg (by omega)]
    simp only [QDate.fromJulianDay, QDate.minJd, QDate.maxJd, zero_add]
    rw [if_pos (by omega)]
  rw [hto]
  have hvt : QTime.isValid ⟨(t - q * 86400000) % 86400000⟩ = true :=
    (QTime_isValid_iff _).2 ⟨by simp only; omega, by simp only; omega⟩
  obtain ⟨f1, f2, f3, f4⟩ := QTime_fields _ hvt
  simp only at f1 f2 f3 f4
  simp only [qwtFromDateTime, qwtToTimeSpec, QDate.toJulianDay, s_julianDay0_eq, s_msecsPerDay,
    f1, f2, f3, f4]
  generalize hm : (t - q * 86400000) % 86400000 = mds at *
  generalize hc : (t - q * 86400000) / 86400000 = c at *
  have hmds : 0 ≤ mds ∧ mds < 86400000 := by omega
  have hc' : c = 0 ∨ c = -1 := by omega
  rw [roundDouble_eq (2440588 + q + c - 2440588) (by omega),
    roundDouble_eq (3600 * (mds / 3600000)) (by omega),
    roundDouble_eq (60 * (mds % 3600000 / 60000)) (by omega),
    roundDouble_eq (3600 * (mds / 3600000) + 60 * (mds % 3600000 / 60000)) (by omega),
    roundDouble_eq (3600 * (mds / 3600000) + 60 * (mds % 3600000 / 60000) + mds / 1000 % 60)
      (by omega),
    roundDouble_eq ((2440588 + q + c - 2440588) * 86400000) (by omega),
    roundDouble_eq ((2440588 + q + c - 2440588) * 86400000 + mds % 1000) (by omega),
    roundDouble_eq (1000 * (3600 * (mds / 3600000) + 60 * (mds % 3600000 / 60000)
      + mds / 1000 % 60)) (by omega),
    roundDouble_eq _ (by omega)]
  omega

/-- The per-granularity table of `qwtFloorDate` for a valid date-time after
the minimum date whose year stays clear of the wraparound of
`qwtToJulianDay`. -/
theorem qwtFloorDate_table (locale : QLocale) (t : QDateTime) (hv : t.isValid = true)
    (hmin : TimeDate.minDate.jd < t.date.jd) (hy : t.date.year ≤ 2147478847) :
    qwtFloorDate locale t TimeDate.Millisecond = t ∧
    ((qwtFloorDate locale t TimeDate.Second).date = t.date ∧
      (qwtFloorDate locale t TimeDate.Second).time.hour = t.time.hour ∧
      (qwtFloorDate locale t TimeDate.Second).time.minute = t.time.minute ∧
      (qwtFloorDate locale t TimeDate.Second).time.second = t.time.second ∧
      (qwtFloorDate locale t TimeDate.Second).time.msec = 0) ∧
    ((qwtFloorDate locale t TimeDate.Minute).date = t.date ∧
      (qwtFloorDate locale t TimeDate.Minute).time.hour = t.time.hour ∧
      (qwtFloorDate locale t TimeDate.Minute).time.minute = t.time.minute ∧
      (qwtFloorDate locale t TimeDate.Minute).time.second = 0 ∧
      (qwtFloorDate locale t TimeDate.Minute).time.msec = 0) ∧
    ((qwtFloorDate locale t TimeDate.Hour).date = t.date ∧
      (qwtFloorDate locale t TimeDate.Hour).time.hour = t.time.hour ∧
      (qwtFloorDate locale t TimeDate.Hour).time.minute = 0 ∧
      (qwtFloorDate locale t TimeDate.Hour).time.second = 0 ∧
      (qwtFloorDate locale t TimeDate.Hour).time.msec = 0) ∧
    qwtFloorDate locale t TimeDate.Day = ⟨t.date, QTime.ofHMS 0 0 0 0⟩ ∧
    ((qwtFloorDate locale t TimeDate.Month).date.isValid = true ∧
      (qwtFloorDate locale t TimeDate.Month).date.year = t.date.year ∧
      (qwtFloorDate locale t TimeDate.Month).date.month = t.date.month ∧
      (qwtFloorDate locale t TimeDate.Month).date.day = 1 ∧
      (qwtFloorDate locale t TimeDate.Month).time = QTime.ofHMS 0 0 0 0) ∧
    ((qwtFloorDate locale t TimeDate.Year).date.isValid = true ∧
      (qwtFloorDate locale t TimeDate.Year).date.year = t.date.year ∧
      (qwtFloorDate locale t TimeDate.Year).date.month = 1 ∧
      (qwtFloorDate locale t TimeDate.Year).date.day = 1 ∧
      (qwtFloorDate locale t TimeDate.Year).time = QTime.ofHMS 0 0 0 0) := by
  obtain ⟨c0, c1, c2, c3, c4, -, c6, c7⟩ := qwtFloorDate_cases locale t hv hmin
  obtain ⟨⟨hd1, hd2⟩, ht1, ht2⟩ := (QDateTime_isValid_iff t).1 hv
  have hvd : t.date.isValid = true := (QDate_isValid_iff _).2 ⟨hd1, hd2⟩
  have hvt : t.time.isValid = true := (QTime_isValid_iff _).2 ⟨ht1, ht2⟩
  obtain ⟨g1, g2, g3, g4⟩ := QTime_fields t.time hvt
  obtain ⟨-, hm, -⟩ := QDate_fields t.date hvd
  obtain ⟨b1, b2, -, -, -⟩ := getDate_bounds t.date.jd
  rw [← hm] at b1 b2
  refine ⟨c0, ?_, ?_, ?_, ?_, ?_, ?_⟩
  · rw [c1]
    have hv1 : QTime.isValid ⟨t.time.mds - t.time.mds % 1000⟩ = true :=
      (QTime_isValid_iff _).2 ⟨by simp only; omega, by simp only; omega⟩
    obtain ⟨k1, k2, k3, k4⟩ := QTime_fields _ hv1
    simp only at k1 k2 k3 k4 ⊢
    rw [k1, k2, k3, k4, g1, g2, g3]
    refine ⟨trivial, ?_, ?_, ?_, ?_⟩ <;> omega
  · rw [c2]
    have hv1 : QTime.isValid ⟨t.time.mds - t.time.mds % 60000⟩ = true :=
      (QTime_isValid_iff _).2 ⟨by simp only; omega, by simp only; omega⟩
    obtain ⟨k1, k2, k3, k4⟩ := QTime_fields _ hv1
    simp only at k1 k2 k3 k4 ⊢
    rw [k1, k2, k3, k4, g1, g2]
    refine ⟨trivial, ?_, ?_, ?_, ?_⟩ <;> omega
  · rw [c3]
    have hv1 : QTime.isValid ⟨t.time.mds - t.time.mds % 3600000⟩ = true :=
      (QTime_isValid_iff _).2 ⟨by simp only; omega, by simp only; omega⟩
    obtain ⟨k1, k2, k3, k4⟩ := QTime_fields _ hv1
    simp only at k1 k2 k3 k4 ⊢
    rw [k1, k2, k3, k4, g1]
    refine ⟨trivial, ?_, ?_, ?_, ?_⟩ <;> omega
  · rw [c4, QTime_ofHMS_zero]
  · obtain ⟨f1, f2, f3⟩ := first_of_month_valid t.date hvd
    rw [c6, if_pos (by omega), QTime_ofHMS_zero]
    have hvd' : QDate.isValid ⟨t.date.jd - (t.date.day - 1)⟩ = true :=
      (QDate_isValid_iff _).2 ⟨by simp only; omega, by simp only; omega⟩
    obtain ⟨gy, gm, gd⟩ := QDate_fields _ hvd'
    simp only [f3] at gy gm gd
    exact ⟨hvd', gy, gm, gd, rfl⟩
  · obtain ⟨f1, f2, f3⟩ := first_of_year_valid t.date hvd
    rw [c7, if_pos (by omega), QTime_ofHMS_zero]
    have hvd' : QDate.isValid ⟨julianDayFromDate t.date.year 1 1⟩ = true :=
      (QDate_isValid_iff _).2 ⟨by simp only; omega, by simp only; omega⟩
    obtain ⟨gy, gm, gd⟩ := QDate_fields _ hvd'
    simp only [f3] at gy gm gd
    exact ⟨hvd', gy, gm, gd, rfl⟩

/-- The exponent computed by `ilog2` is the one of the leading binary
digit. -/
theorem log2Fuel_spec (fuel n : Nat) (h0 : 0 < n) (hf : n ≤ fuel) :
    2 ^ log2Fuel fuel n ≤ n ∧ n < 2 ^ (log2Fuel fuel n + 1) := by
  induction fuel generalizing n with
  | zero => omega
  | succ f ih =>
    simp only [log2Fuel]
    split_ifs with h2
    · constructor <;> simp <;> omega
    · have := ih (n / 2) (by omega) (by omega)
      obtain ⟨l, u⟩ := this
      constructor
      · rw [pow_succ]; omega
      · rw [pow_succ]; omega

/-- Bounds of `ilog2`. -/
theorem ilog2_spec (n : Nat) (h0 : 0 < n) : 2 ^ ilog2 n ≤ n ∧ n < 2 ^ (ilog2 n + 1) :=
  log2Fuel_spec n n h0 (le_refl n)

/-- The value of `roundHalfEven` is a whole number nearest to the quotient. -/
theorem roundHalfEven_near (num den : Nat) (hd : 0 < den) :
    2 * roundHalfEven num den * den ≤ 2 * num + den ∧
      2 * num ≤ 2 * roundHalfEven num den * den + den := by
  have h1 := Nat.div_add_mod num den
  have h3 := Nat.mod_lt num hd
  simp only [roundHalfEven]
  set f := num / den
  set r := num % den
  have e1 : 2 * (f + 1) * den = 2 * (den * f) + 2 * den := by ring
  have e2 : 2 * f * den = 2 * (den * f) := by ring
  split_ifs <;> constructor <;> first | (rw [e1]; omega) | (rw [e2]; omega)

/-- For a valid date-time strictly between the minimum and the maximum date
`qwtCeilDate` returns the floor at the granularities Second, Minute, Hour
and Month: the values of `addSecs` and `addMonths` are not assigned. -/
theorem qwtCeilDate_eq_qwtFloorDate (locale : QLocale) (t : QDateTime) (T : Int)
    (hT : T = TimeDate.Second ∨ T = TimeDate.Minute ∨ T = TimeDate.Hour ∨ T = TimeDate.Month)
    (hmin : TimeDate.minDate.jd < t.date.jd) (hmax : t.date.jd < TimeDate.maxDate.jd) :
    qwtCeilDate locale t T = qwtFloorDate locale t T := by
  have h1 : ¬ t.date.jd ≥ TimeDate.maxDate.jd := by omega
  have h2 : ¬ t.date.jd ≤ TimeDate.minDate.jd := by omega
  rcases hT with h | h | h | h <;> subst h <;>
    simp only [qwtCeilDate, qwtFloorDate, if_neg h1, if_neg h2, TimeDate.Millisecond,
      TimeDate.Second, TimeDate.Minute, TimeDate.Hour, TimeDate.Day, TimeDate.Week,
      TimeDate.Month] <;> rfl

/-- A Julian day above the range of `QDate` has a year above the range of
`int`. -/
theorem getDate_year_gt (jd : Int) (h : QDate.maxJd < jd) :
    2147483647 < (getDateFromJulianDay jd).year := by
  obtain ⟨b, d, e, m, hd0, hd1, he0, he1, hm0, hm1, hm, hjd, hb, hday, hmonth, hyear⟩ :=
    getDate_decompose jd
  simp only [QDate.maxJd] at h
  rw [hyear]
  have h10 : m / 10 = 0 ∧ m ≤ 9 ∨ m / 10 = 1 ∧ 10 ≤ m := by omega
  split_ifs <;> omega

/-- A valid date-time at midnight is its own floor at the granularities
Second, Minute, Hour and Day. -/
theorem qwtFloorDate_midnight (locale : QLocale) (t : QDateTime) (hv : t.isValid = true)
    (hm : t.time = QTime.ofHMS 0 0 0 0) :
    qwtFloorDate locale t TimeDate.Second = t ∧ qwtFloorDate locale t TimeDate.Minute = t ∧
      qwtFloorDate locale t TimeDate.Hour = t ∧ qwtFloorDate locale t TimeDate.Day = t := by
  by_cases hmin : TimeDate.minDate.jd < t.date.jd
  swap
  · simp only [qwtFloorDate_of_le_min locale t _ (le_of_not_lt hmin), and_self]
  obtain ⟨-, c1, c2, c3, c4, -⟩ := qwtFloorDate_cases locale t hv hmin
  rw [QTime_ofHMS_zero] at hm
  rw [c1, c2, c3, c4, hm]
  have ht : t = ⟨t.date, ⟨0⟩⟩ := by rw [← hm]
  refine ⟨?_, ?_, ?_, ?_⟩ <;> exact ht.symm

/-- A valid date-time that is not on day 1 of its month differs from its
floor at granularity Month. -/
theorem qwtFloorDate_month_ne (locale : QLocale) (t : QDateTime) (hv : t.isValid = true)
    (hd : t.date.day ≠ 1) : qwtFloorDate locale t TimeDate.Month ≠ t := by
  obtain ⟨⟨hd1, hd2⟩, ht1, ht2⟩ := (QDateTime_isValid_iff t).1 hv
  have hvd : t.date.isValid = true := (QDate_isValid_iff _).2 ⟨hd1, hd2⟩
  have hmin : TimeDate.minDate.jd < t.date.jd := by
    rw [minDate_jd]
    by_contra hc
    have hj : t.date.jd = -784350574879 := by omega
    obtain ⟨-, -, gd⟩ := QDate_fields t.date hvd
    rw [hj] at gd
    exact hd (by rw [gd]; decide)
  obtain ⟨-, -, -, -, -, -, c6, -⟩ := qwtFloorDate_cases locale t hv hmin
  rw [c6]
  intro heq
  have hjd := congrArg (fun x : QDateTime => x.date.jd) heq
  simp only [QDate.null, QDate.nullJd] at hjd
  split_ifs at hjd <;> simp only at hjd <;> omega

/-- For every list of valid date-times at midnight of which at least one is
not on day 1 of its month, `qwtIntervalType` returns Week: the scan fails
first at Month and the result is `type - 1`. -/
theorem qwtIntervalType_midnight (locale : QLocale) (dateTimes : List QDateTime)
    (hv : ∀ dt ∈ dateTimes, dt.isValid = true)
    (hm : ∀ dt ∈ dateTimes, dt.time = QTime.ofHMS 0 0 0 0)
    (hd : ∃ dt ∈ dateTimes, dt.date.day ≠ 1) :
    qwtIntervalType locale dateTimes = some TimeDate.Week := by
  have hpass : ∀ T : Int, T = 1 ∨ T = 2 ∨ T = 3 ∨ T = 4 →
      ¬ ∃ x ∈ dateTimes, ¬ qwtFloorDate locale x T = x := by
    intro T hT
    rintro ⟨dt, hdt, hne⟩
    obtain ⟨m1, m2, m3, m4⟩ := qwtFloorDate_midnight locale dt (hv dt hdt) (hm dt hdt)
    simp only [TimeDate.Second, TimeDate.Minute, TimeDate.Hour, TimeDate.Day] at m1 m2 m3 m4
    rcases hT with h | h | h | h <;> subst h <;> exact hne (by assumption)
  have hfail : ∃ x ∈ dateTimes, ¬ qwtFloorDate locale x 6 = x := by
    obtain ⟨dt, hdt, hne⟩ := hd
    exact ⟨dt, hdt, qwtFloorDate_month_ne locale dt (hv dt hdt) hne⟩
  simp only [qwtIntervalType, qwtIntervalTypeLoop, TimeDate.Second, TimeDate.Year,
    TimeDate.Week]
  norm_num
  rw [if_neg (hpass 1 (by omega)), if_neg (hpass 2 (by omega)), if_neg (hpass 3 (by omega)),
    if_neg (hpass 4 (by omega)), if_pos hfail]

/-- The scan of `qwtIntervalType` ends within its seven iterations, and its
result is Millisecond, Second, Minute, Hour, Week, Month or Year, never
Day. -/
theorem qwtIntervalType_returns (locale : QLocale) (dateTimes : List QDateTime) :
    ∃ r : Int, qwtIntervalType locale dateTimes = some r ∧
      (r = TimeDate.Millisecond ∨ r = TimeDate.Second ∨ r = TimeDate.Minute ∨
        r = TimeDate.Hour ∨ r = TimeDate.Week ∨ r = TimeDate.Month ∨ r = TimeDate.Year) := by
  simp only [qwtIntervalType, qwtIntervalTypeLoop, TimeDate.Millisecond, TimeDate.Second,
    TimeDate.Minute, TimeDate.Hour, TimeDate.Week, TimeDate.Month, TimeDate.Year]
  norm_num
  split_ifs <;> simp

/-- The per-granularity results the specification quotes for the sample
2021-06-15T13:45:30.250. -/
theorem rounding_examples :
    qwtFloorDate mondayLocale (mkDateTime 2021 6 15 13 45 30 250) TimeDate.Hour
      = mkDateTime 2021 6 15 13 0 0 0 ∧
    qwtFloorDate mondayLocale (mkDateTime 2021 6 15 13 45 30 250) TimeDate.Year
      = mkDateTime 2021 1 1 0 0 0 0 ∧
    qwtCeilDate mondayLocale (mkDateTime 2021 6 15 13 45 30 250) TimeDate.Day
      = mkDateTime 2021 6 16 0 0 0 0 ∧
    qwtCeilDate mondayLocale (mkDateTime 2021 6 15 13 45 30 250) TimeDate.Year
      = mkDateTime 2022 1 1 0 0 0 0 := by decide

/-- Claim C1 fails at granularity Second: the sample 2021-06-15T13:45:30.250
is valid and before the maximum date, and `qwtCeilDate` returns
2021-06-15T13:45:30.000, which is earlier than the sample, because the value
of `dt.addSecs( 1 )` is not assigned. -/
theorem qwtCeilDate_second_before_sample :
    (mkDateTime 2021 6 15 13 45 30 250).isValid = true ∧
    (mkDateTime 2021 6 15 13 45 30 250).date.jd < TimeDate.maxDate.jd ∧
    qwtCeilDate mondayLocale (mkDateTime 2021 6 15 13 45 30 250) TimeDate.Second
      = mkDateTime 2021 6 15 13 45 30 0 ∧
    (qwtCeilDate mondayLocale (mkDateTime 2021 6 15 13 45 30 250) TimeDate.Second).lt
      (mkDateTime 2021 6 15 13 45 30 250) = true := by decide

/-- The floor of 2021-06-15T13:45:30.250 at granularity Month is not later
than the sample. -/
theorem qwtFloorDate_le_witness :
    (TimeDate.Millisecond ≤ TimeDate.Month ∧ TimeDate.Month ≤ TimeDate.Year) ∧
    (mkDateTime 2021 6 15 13 45 30 250).isValid = true ∧
    TimeDate.minDate.jd < (mkDateTime 2021 6 15 13 45 30 250).date.jd ∧
    (qwtFloorDate mondayLocale (mkDateTime 2021 6 15 13 45 30 250) TimeDate.Month).le
      (mkDateTime 2021 6 15 13 45 30 250) = true :=
  ⟨by decide, by decide, by decide,
    qwtFloorDate_le mondayLocale (mkDateTime 2021 6 15 13 45 30 250) TimeDate.Month
      (by decide) (by decide) (by decide)⟩

/-- Claim C3 fails on its own example: for the midnight samples 2021-06-15
and 2021-06-16 the scan fails at Month and `qwtIntervalType` returns
`type - 1`, which is Week and not Day. -/
theorem qwtIntervalType_midnight_samples :
    (mkDateTime 2021 6 15 0 0 0 0).isValid = true ∧
    (mkDateTime 2021 6 16 0 0 0 0).isValid = true ∧
    qwtIntervalType mondayLocale [mkDateTime 2021 6 15 0 0 0 0, mkDateTime 2021 6 16 0 0 0 0]
      = some TimeDate.Week ∧
    TimeDate.Week ≠ TimeDate.Day := by decide

/-- Claim C4 fails as stated: the timestamp `-(2^53 - 1)` is a whole number
that is a `double`, its Julian day lies within the bounds, and the round
trip yields `-2^53`. -/
theorem qwtFromDateTime_qwtToDateTime_counterexample :
    roundDouble (-9007199254740991) = -9007199254740991 ∧
    TimeDate.minJulianDay ≤ s_julianDay0 + (-9007199254740991) / s_msecsPerDay ∧
    s_julianDay0 + (-9007199254740991) / s_msecsPerDay ≤ TimeDate.maxJulianDay ∧
    qwtFromDateTime (qwtToDateTime (-9007199254740991)) = -9007199254740992 ∧
    qwtFromDateTime (qwtToDateTime (-9007199254740991)) ≠ -9007199254740991 := by decide

/-- Witness of the amended claim C4: the timestamp `-1`, one millisecond
before the epoch, converts to 1969-12-31T23:59:59.999 and back to `-1`. -/
theorem qwtFromDateTime_qwtToDateTime_witness :
    ((-9007199168340992 : Int) ≤ -1 ∧ (-1 : Int) ≤ 9007199168340992) ∧
    qwtToDateTime (-1) = mkDateTime 1969 12 31 23 59 59 999 ∧
    qwtFromDateTime (qwtToDateTime (-1)) = -1 :=
  ⟨by decide, by decide, qwtFromDateTime_qwtToDateTime (-1) (by decide)⟩

/-- Claim C5 fails at granularity Year: the ceiling of 2021-06-15T13:45:30.250
is 2022-01-01T00:00:00.000, and the ceiling of that is
2023-01-01T00:00:00.000, because `QTime::isNull()` is false for midnight. -/
theorem qwtCeilDate_year_not_idempotent :
    (mkDateTime 2021 6 15 13 45 30 250).isValid = true ∧
    qwtCeilDate mondayLocale (mkDateTime 2021 6 15 13 45 30 250) TimeDate.Year
      = mkDateTime 2022 1 1 0 0 0 0 ∧
    qwtCeilDate mondayLocale
      (qwtCeilDate mondayLocale (mkDateTime 2021 6 15 13 45 30 250) TimeDate.Year) TimeDate.Year
      = mkDateTime 2023 1 1 0 0 0 0 := by decide

/-- Witness of claim C6: flooring 2021-06-15T13:45:30.250 to the week twice
gives the same as flooring it once. -/
theorem qwtFloorDate_idempotent_witness :
    (TimeDate.Millisecond ≤ TimeDate.Week ∧ TimeDate.Week ≤ TimeDate.Year) ∧
    (mkDateTime 2021 6 15 13 45 30 250).isValid = true ∧
    qwtFloorDate mondayLocale
      (qwtFloorDate mondayLocale (mkDateTime 2021 6 15 13 45 30 250) TimeDate.Week) TimeDate.Week
      = qwtFloorDate mondayLocale (mkDateTime 2021 6 15 13 45 30 250) TimeDate.Week :=
  ⟨by decide, by decide,
    qwtFloorDate_idempotent mondayLocale (mkDateTime 2021 6 15 13 45 30 250) TimeDate.Week
      (by decide) (by decide)⟩

/-- Claim C8 fails at granularity Second: for 2021-06-15T13:45:30.250 the
floor is earlier than the sample, and `qwtCeilDate` returns the floor itself
instead of the floor advanced by one second, 2021-06-15T13:45:31.000. -/
theorem qwtCeilDate_second_eq_floor :
    (qwtFloorDate mondayLocale (mkDateTime 2021 6 15 13 45 30 250) TimeDate.Second).lt
      (mkDateTime 2021 6 15 13 45 30 250) = true ∧
    qwtCeilDate mondayLocale (mkDateTime 2021 6 15 13 45 30 250) TimeDate.Second
      = qwtFloorDate mondayLocale (mkDateTime 2021 6 15 13 45 30 250) TimeDate.Second ∧
    (qwtFloorDate mondayLocale (mkDateTime 2021 6 15 13 45 30 250) TimeDate.Second).addSecs 1
      = mkDateTime 2021 6 15 13 45 31 0 ∧
    qwtCeilDate mondayLocale (mkDateTime 2021 6 15 13 45 30 250) TimeDate.Second
      ≠ mkDateTime 2021 6 15 13 45 31 0 := by decide

/-- Claim C9 fails: 2021-01-01T00:00:00.000 is valid, before the maximum date
and exactly at the start of its year, its time is not null, and
`qwtCeilDate` at granularity Year returns 2022-01-01T00:00:00.000. -/
theorem qwtCeilDate_year_start_advances :
    (mkDateTime 2021 1 1 0 0 0 0).isValid = true ∧
    (mkDateTime 2021 1 1 0 0 0 0).date.jd < TimeDate.maxDate.jd ∧
    (mkDateTime 2021 1 1 0 0 0 0).time.isNull = false ∧
    qwtCeilDate mondayLocale (mkDateTime 2021 1 1 0 0 0 0) TimeDate.Year
      = mkDateTime 2022 1 1 0 0 0 0 ∧
    qwtCeilDate mondayLocale (mkDateTime 2021 1 1 0 0 0 0) TimeDate.Year
      ≠ mkDateTime 2021 1 1 0 0 0 0 := by decide

/-- Claim C10 fails for late years: 2147480000-06-15T00:00:00.000 is valid and
after the minimum date, the `int` sum `year + 4800` of `qwtToJulianDay`
wraps around, and `qwtFloorDate` at granularities Year and Month returns a
date-time with the null date instead of the start of the year or month. -/
theorem qwtFloorDate_year_overflow :
    (mkDateTime 2147480000 6 15 0 0 0 0).isValid = true ∧
    TimeDate.minDate.jd < (mkDateTime 2147480000 6 15 0 0 0 0).date.jd ∧
    (mkDateTime 2147480000 6 15 0 0 0 0).date.year = 2147480000 ∧
    wrapInt (2147480000 + 4800) = -2147482496 ∧
    qwtFloorDate mondayLocale (mkDateTime 2147480000 6 15 0 0 0 0) TimeDate.Year
      = ⟨QDate.null, QTime.ofHMS 0 0 0 0⟩ ∧
    qwtFloorDate mondayLocale (mkDateTime 2147480000 6 15 0 0 0 0) TimeDate.Month
      = ⟨QDate.null, QTime.ofHMS 0 0 0 0⟩ := by decide

/-- The date of the Julian day composed of a century `b`, a year of the
century `d` and a day `e` of the year counted from March, before the leap
day. -/
theorem getDate_compose (b d e m : Int) (hd0 : 0 ≤ d) (hd1 : d ≤ 99) (he0 : 0 ≤ e)
    (he1 : e ≤ 364) (hm : (5 * e + 2) / 153 = m) :
    getDateFromJulianDay (36524 * b + b / 4 + 365 * d + d / 4 + e - 32044)
      = ⟨(if 100 * b + d - 4800 + m / 10 ≤ 0 then 100 * b + d - 4800 + m / 10 - 1
          else 100 * b + d - 4800 + m / 10),
        m + 3 - 12 * (m / 10), e - (153 * m + 2) / 5 + 1⟩ := by
  simp only [getDateFromJulianDay]
  have ha : 36524 * b + b / 4 + 365 * d + d / 4 + e - 32044 + 32044
      = 36524 * b + b / 4 + 365 * d + d / 4 + e := by ring
  rw [ha]
  have hb' : (4 * (36524 * b + b / 4 + 365 * d + d / 4 + e) + 3) / 146097 = b := by omega
  rw [hb']
  have hc' : 36524 * b + b / 4 + 365 * d + d / 4 + e - 146097 * b / 4
      = 365 * d + d / 4 + e := by omega
  rw [hc']
  have hd' : (4 * (365 * d + d / 4 + e) + 3) / 1461 = d := by omega
  rw [hd']
  have he' : 365 * d + d / 4 + e - 1461 * d / 4 = e := by omega
  rw [he', hm]

/-- A date whose day is within the length of its month in a common year
converts to a Julian day and back to itself. -/
theorem getDate_julianDayFromDate (Y M D : Int) (hY : Y ≠ 0) (hM1 : 1 ≤ M) (hM2 : M ≤ 12)
    (hD1 : 1 ≤ D) (hD2 : D ≤ QDate.monthDays M) :
    getDateFromJulianDay (julianDayFromDate Y M D) = ⟨Y, M, D⟩ := by
  obtain ⟨A, m, hA, hm0, hm1, hMm⟩ : ∃ A m : Int, (A = 0 ∧ m ≤ 9 ∨ A = 1 ∧ 10 ≤ m) ∧
      0 ≤ m ∧ m ≤ 11 ∧ M = m + 3 - 12 * A := by
    by_cases h : M ≤ 2
    · exact ⟨1, M + 9, by omega, by omega, by omega, by omega⟩
    · exact ⟨0, M - 3, by omega, by omega, by omega, by omega⟩
  have hA10 : m / 10 = A := by omega
  set Y' : Int := (if Y < 0 then Y + 1 else Y) + 4800 - A with hY'
  obtain ⟨b, d, hd0, hd1, hbd⟩ : ∃ b d : Int, 0 ≤ d ∧ d ≤ 99 ∧ Y' = 100 * b + d :=
    ⟨Y' / 100, Y' % 100, by omega, by omega, by omega⟩
  have hJ := julianDayFromDate_march Y M D b d m hm0 hm1 hd0 hd1 (by rw [hA10]; exact hMm)
    (by rw [hA10]; omega)
  -- the day of the year counted from March
  have hday : 0 ≤ (153 * m + 2) / 5 + (D - 1) ∧ (153 * m + 2) / 5 + (D - 1) ≤ 364 ∧
      (5 * ((153 * m + 2) / 5 + (D - 1)) + 2) / 153 = m := by
    simp only [QDate.monthDays] at hD2
    have hcases : m = 0 ∨ m = 1 ∨ m = 2 ∨ m = 3 ∨ m = 4 ∨ m = 5 ∨ m = 6 ∨ m = 7 ∨ m = 8 ∨
        m = 9 ∨ m = 10 ∨ m = 11 := by omega
    rcases hcases with h | h | h | h | h | h | h | h | h | h | h | h <;> subst h <;>
      (have hM' : M = 3 ∨ M = 4 ∨ M = 5 ∨ M = 6 ∨ M = 7 ∨ M = 8 ∨ M = 9 ∨ M = 10 ∨ M = 11 ∨
          M = 12 ∨ M = 1 ∨ M = 2 := by omega) <;>
      rcases hM' with h | h | h | h | h | h | h | h | h | h | h | h <;> subst h <;>
      omega
  obtain ⟨h1, h2, h3⟩ := hday
  have hcomp := getDate_compose b d ((153 * m + 2) / 5 + (D - 1)) m hd0 hd1 h1 h2 h3
  have harg : julianDayFromDate Y M D
      = 36524 * b + b / 4 + 365 * d + d / 4 + ((153 * m + 2) / 5 + (D - 1)) - 32044 := by
    rw [hJ]; ring
  rw [harg, hcomp, hA10]
  have hyr : (if 100 * b + d - 4800 + A ≤ 0 then 100 * b + d - 4800 + A - 1
      else 100 * b + d - 4800 + A) = Y := by
    split_ifs <;> omega
  rw [hyr]
  congr 1 <;> omega

/-- January 1 follows December 31 of the year before, year -1 before
year 1. -/
theorem julianDayFromDate_jan_first (Y : Int) (hY : Y ≠ 0) :
    julianDayFromDate Y 1 1
      = julianDayFromDate (if Y = 1 then -1 else Y - 1) 12 31 + 1 := by
  simp only [julianDayFromDate]
  have h1 : (14 - (1 : Int)) / 12 = 1 := by decide
  have h2 : (14 - (12 : Int)) / 12 = 0 := by decide
  rw [h1, h2]
  have hy : (if (if Y = 1 then (-1 : Int) else Y - 1) < 0
      then (if Y = 1 then (-1 : Int) else Y - 1) + 1 else (if Y = 1 then (-1 : Int) else Y - 1))
      = (if Y < 0 then Y + 1 else Y) - 1 := by
    split_ifs <;> omega
  rw [hy]
  generalize (if Y < 0 then Y + 1 else Y) = y
  have e1 : y + 4800 - 1 = y - 1 + 4800 - 0 := by ring
  rw [e1]
  generalize y - 1 + 4800 - 0 = z
  omega

/-- January 1 of the year of a Julian day is not later than it. -/
theorem julianDayFromDate_year_le (jd : Int) :
    julianDayFromDate (getDateFromJulianDay jd).year 1 1 ≤ jd := by
  obtain ⟨b1, b2, b3, b4, b5⟩ := getDate_bounds jd
  have hJ := julianDayFromDate_first_of_getDate jd
  have hle := julianDayFromDate_jan_le (getDateFromJulianDay jd).year _ b1 b2
  omega

/-- The days around January 1 of a year: the six days after it are in
January of the year, the seven days before it in December of the year
before. -/
theorem getDate_near_jan_first (Y k : Int) (hY : Y ≠ 0) :
    (0 ≤ k → k ≤ 13 → getDateFromJulianDay (julianDayFromDate Y 1 1 + k) = ⟨Y, 1, 1 + k⟩) ∧
    (1 ≤ k → k ≤ 7 → getDateFromJulianDay (julianDayFromDate Y 1 1 - k)
      = ⟨(if Y = 1 then -1 else Y - 1), 12, 32 - k⟩) := by
  constructor
  · intro h0 h1
    have h := getDate_julianDayFromDate Y 1 (1 + k) hY (by omega) (by omega) (by omega)
      (by simp only [QDate.monthDays]; norm_num; omega)
    rw [julianDayFromDate_day] at h
    have e : julianDayFromDate Y 1 1 + (1 + k - 1) = julianDayFromDate Y 1 1 + k := by ring
    rw [e] at h
    exact h
  · intro h0 h1
    have hp : (if Y = 1 then (-1 : Int) else Y - 1) ≠ 0 := by split_ifs <;> omega
    have h := getDate_julianDayFromDate (if Y = 1 then -1 else Y - 1) 12 (32 - k) hp
      (by omega) (by omega) (by omega) (by simp only [QDate.monthDays]; norm_num; omega)
    rw [julianDayFromDate_day] at h
    have hj := julianDayFromDate_jan_first Y hY
    rw [julianDayFromDate_day _ 12 31] at hj
    have e : julianDayFromDate (if Y = 1 then -1 else Y - 1) 12 1 + (32 - k - 1)
        = julianDayFromDate Y 1 1 - k := by omega
    rw [e] at h
    exact h

/-- January 1 of a year that fits an `int`, other than the least one, lies
at least seven days after the minimum date and thirteen before the maximum
date. -/
theorem julianDayFromDate_jan_first_range (Y : Int) (hY : Y ≠ 0) (h1 : -2147483647 ≤ Y)
    (h2 : Y ≤ 2147483647) :
    -784350574879 ≤ julianDayFromDate Y 1 1 - 7 ∧
      julianDayFromDate Y 1 1 + 13 ≤ 784354017364 := by
  obtain ⟨ha, hb⟩ := getDate_near_jan_first Y 13 hY
  obtain ⟨_, hc⟩ := getDate_near_jan_first Y 7 hY
  have ha := ha (by omega) (by omega)
  have hc := hc (by omega) (by omega)
  constructor
  · by_contra hlt
    have := getDate_year_lt (julianDayFromDate Y 1 1 - 7) (by simp only [QDate.minJd]; omega)
    rw [hc] at this
    simp only at this
    split_ifs at this <;> omega
  · by_contra hlt
    have := getDate_year_gt (julianDayFromDate Y 1 1 + 13) (by simp only [QDate.maxJd]; omega)
    rw [ha] at this
    simp only at this
    omega

/-- The Julian day that `qwtDateOfWeek0` returns outside the United States:
the start of the week of January 1, a week later if the Thursday of that
week lies before January 1. -/
theorem qwtDateOfWeek0_jd (locale : QLocale) (year : Int)
    (hus : locale.isUnitedStates = false) (hy0 : year ≠ 0) (hlo : -2147483647 ≤ year)
    (hhi : year ≤ 2147483647) :
    qwtDateOfWeek0 locale year =
      ⟨if julianDayFromDate year 1 1
            - (julianDayFromDate year 1 1 % 7 + 1 - locale.firstDayOfWeek.toInt) % 7
            + (4 - locale.firstDayOfWeek.toInt) % 7 < julianDayFromDate year 1 1
        then julianDayFromDate year 1 1
            - (julianDayFromDate year 1 1 % 7 + 1 - locale.firstDayOfWeek.toInt) % 7 + 7
        else julianDayFromDate year 1 1
            - (julianDayFromDate year 1 1 % 7 + 1 - locale.firstDayOfWeek.toInt) % 7⟩ := by
  have hf : 1 ≤ locale.firstDayOfWeek.toInt ∧ locale.firstDayOfWeek.toInt ≤ 7 := by
    cases locale.firstDayOfWeek <;> decide
  obtain ⟨r1, r2⟩ := julianDayFromDate_jan_first_range year hy0 hlo hhi
  obtain ⟨hafter, hbefore⟩ : (∀ k : Int, 0 ≤ k → k ≤ 13 →
      getDateFromJulianDay (julianDayFromDate year 1 1 + k) = ⟨year, 1, 1 + k⟩) ∧
      (∀ k : Int, 1 ≤ k → k ≤ 7 → getDateFromJulianDay (julianDayFromDate year 1 1 - k)
        = ⟨(if year = 1 then -1 else year - 1), 12, 32 - k⟩) :=
    ⟨fun k => (getDate_near_jan_first year k hy0).1,
      fun k => (getDate_near_jan_first year k hy0).2⟩
  generalize hJ : julianDayFromDate year 1 1 = J at *
  generalize hF : locale.firstDayOfWeek.toInt = f at *
  have hof : QDate.ofYMD year 1 1 = ⟨J⟩ := by
    simp only [QDate.ofYMD, QDate_isValidYMD_first year 1 hy0 (by omega) (by omega), if_true, hJ]
  have hv1 : QDate.isValid ⟨J⟩ = true := (QDate_isValid_iff _).2 ⟨by simp only; omega,
    by simp only; omega⟩
  have hdow := QDate_dayOfWeek_spec ⟨J⟩ hv1
  simp only at hdow
  -- the start of the week of January 1
  have hdays : (if J % 7 + 1 - f < 0 then J % 7 + 1 - f + 7 else J % 7 + 1 - f)
      = (J % 7 + 1 - f) % 7 := by
    split_ifs <;> omega
  have hoff : (if (4 : Int) - f < 0 then 4 - f + 7 else 4 - f) = (4 - f) % 7 := by
    split_ifs <;> omega
  generalize hD : (J % 7 + 1 - f) % 7 = D at *
  generalize hO : (4 - f) % 7 = O at *
  have hDr : 0 ≤ D ∧ D ≤ 6 := by omega
  have hOr : 0 ≤ O ∧ O ≤ 6 := by omega
  have hv0 : QDate.isValid ⟨J - D⟩ = true := (QDate_isValid_iff _).2 ⟨by simp only; omega,
    by simp only; omega⟩
  have hvx : QDate.isValid ⟨J - D + O⟩ = true := (QDate_isValid_iff _).2
    ⟨by simp only; omega, by simp only; omega⟩
  have hadd0 : (QDate.mk J).addDays (-D) = ⟨J - D⟩ := by
    simp only [QDate.addDays, QDate_isNull_eq_false _ hv1, Bool.false_eq_true, if_false,
      QDate.fromJulianDay, QDate.minJd, QDate.maxJd]
    rw [if_pos (by omega)]
    congr 1
  have haddx : (QDate.mk (J - D)).addDays O = ⟨J - D + O⟩ := by
    simp only [QDate.addDays, QDate_isNull_eq_false _ hv0, Bool.false_eq_true, if_false,
      QDate.fromJulianDay, QDate.minJd, QDate.maxJd]
    rw [if_pos (by omega)]
  have hadd7 : (QDate.mk (J - D)).addDays 7 = ⟨J - D + 7⟩ := by
    simp only [QDate.addDays, QDate_isNull_eq_false _ hv0, Bool.false_eq_true, if_false,
      QDate.fromJulianDay, QDate.minJd, QDate.maxJd]
    rw [if_pos (by omega)]
  have hyx : (QDate.mk (J - D + O)).year < year ↔ J - D + O < J := by
    rw [(QDate_fields _ hvx).1]
    simp only
    by_cases hlt : J - D + O < J
    · have h := hbefore (J - (J - D + O)) (by omega) (by omega)
      have e : J - (J - (J - D + O)) = J - D + O := by ring
      rw [e] at h
      rw [h]
      simp only [hlt, iff_true]
      split_ifs <;> omega
    · have h := hafter (J - D + O - J) (by omega) (by omega)
      have e : J + (J - D + O - J) = J - D + O := by ring
      rw [e] at h
      rw [h]
      simp only [hlt, iff_false]
      omega
  simp only [qwtDateOfWeek0, hof, hdow, qwtFirstDayOfWeek, hF, hdays, hD, hadd0, hus,
    Bool.not_false, if_true, Thursday, hoff, hO, haddx, hadd7]
  by_cases hlt : J - D + O < J
  · rw [if_pos (hyx.2 hlt), if_pos hlt]
  · rw [if_neg (fun h => hlt (hyx.1 h)), if_neg hlt]

/-- Claim C16 fails: for the year -2147483648 with Monday as first day of
the week, and for the year 0, `qwtDateOfWeek0` with the ISO rule returns the
null date, which has no weekday (`dayOfWeek` is 0) and no week. -/
theorem qwtDateOfWeek0_null_counterexample :
    mondayLocale.isUnitedStates = false ∧
      qwtDateOfWeek0 mondayLocale (-2147483648) = QDate.null ∧
      (qwtDateOfWeek0 mondayLocale (-2147483648)).isValid = false ∧
      (qwtDateOfWeek0 mondayLocale (-2147483648)).dayOfWeek ≠ qwtFirstDayOfWeek mondayLocale ∧
      qwtDateOfWeek0 mondayLocale 0 = QDate.null ∧
      (qwtDateOfWeek0 mondayLocale 0).dayOfWeek ≠ qwtFirstDayOfWeek mondayLocale := by
  decide

/-- Claim C16 as amended: for every year from -2147483647 to 2147483647
other than 0 and every configured first day of the week, with the ISO rule
(outside the United States) `qwtDateOfWeek0` returns a valid date whose weekday
is the configured first day of the week and whose seven days contain the first
Thursday of the year: a valid date on a Thursday in that year, not later than
any other Thursday of that year. -/
theorem qwtDateOfWeek0_iso (locale : QLocale) (year : Int)
    (hus : locale.isUnitedStates = false) (hy0 : year ≠ 0) (hlo : -2147483647 ≤ year)
    (hhi : year ≤ 2147483647) :
    (qwtDateOfWeek0 locale year).isValid = true ∧
      (qwtDateOfWeek0 locale year).dayOfWeek = qwtFirstDayOfWeek locale ∧
      ∃ thursday : QDate, thursday.isValid = true ∧ thursday.dayOfWeek = Thursday ∧
        thursday.year = year ∧
        (∀ other : QDate, other.isValid = true → other.dayOfWeek = Thursday →
          other.year = year → thursday.jd ≤ other.jd) ∧
        (qwtDateOfWeek0 locale year).jd ≤ thursday.jd ∧
        thursday.jd ≤ (qwtDateOfWeek0 locale year).jd + 6 := by
  have hf : 1 ≤ locale.firstDayOfWeek.toInt ∧ locale.firstDayOfWeek.toInt ≤ 7 := by
    cases locale.firstDayOfWeek <;> decide
  obtain ⟨r1, r2⟩ := julianDayFromDate_jan_first_range year hy0 hlo hhi
  have hafter : ∀ k : Int, 0 ≤ k → k ≤ 13 →
      getDateFromJulianDay (julianDayFromDate year 1 1 + k) = ⟨year, 1, 1 + k⟩ :=
    fun k => (getDate_near_jan_first year k hy0).1
  have hle : ∀ other : QDate, other.isValid = true → other.year = year →
      julianDayFromDate year 1 1 ≤ other.jd := by
    intro other hv hy
    rw [(QDate_fields other hv).1] at hy
    have h := julianDayFromDate_year_le other.jd
    rw [hy] at h
    exact h
  rw [qwtDateOfWeek0_jd locale year hus hy0 hlo hhi]
  simp only [qwtFirstDayOfWeek]
  generalize julianDayFromDate year 1 1 = J at *
  generalize locale.firstDayOfWeek.toInt = f at *
  generalize hR : (if J - (J % 7 + 1 - f) % 7 + (4 - f) % 7 < J
    then J - (J % 7 + 1 - f) % 7 + 7 else J - (J % 7 + 1 - f) % 7) = R
  have hRr : J - 6 ≤ R ∧ R ≤ J + 7 := by
    rw [← hR]; split_ifs <;> omega
  have hRm : R % 7 + 1 = f := by
    rw [← hR]; split_ifs <;> omega
  have hRt : J ≤ R + (4 - f) % 7 ∧ R + (4 - f) % 7 ≤ J + 6 := by
    rw [← hR]; split_ifs <;> omega
  have hvR : QDate.isValid ⟨R⟩ = true := (QDate_isValid_iff _).2 ⟨by simp only; omega,
    by simp only; omega⟩
  have hvT : QDate.isValid ⟨R + (4 - f) % 7⟩ = true := (QDate_isValid_iff _).2
    ⟨by simp only; omega, by simp only; omega⟩
  refine ⟨hvR, ?_, ⟨R + (4 - f) % 7⟩, hvT, ?_, ?_, ?_, ?_, ?_⟩
  · rw [QDate_dayOfWeek_spec _ hvR]; exact hRm
  · rw [QDate_dayOfWeek_spec _ hvT]; simp only [Thursday]; omega
  · rw [(QDate_fields _ hvT).1]
    have h := hafter (R + (4 - f) % 7 - J) (by omega) (by omega)
    have e : J + (R + (4 - f) % 7 - J) = R + (4 - f) % 7 := by ring
    rw [e] at h
    simp only [h]
  · intro other hv hd hy
    have h1 := hle other hv hy
    rw [QDate_dayOfWeek_spec _ hv] at hd
    simp only [Thursday] at hd
    simp only
    omega
  · simp only; omega
  · simp only; omega

/-- The year 2021 with Monday as first day of the week satisfies the
conditions of `qwtDateOfWeek0_iso`. -/
theorem qwtDateOfWeek0_iso_witness :
    mondayLocale.isUnitedStates = false ∧ (2021 : Int) ≠ 0 ∧ (-2147483647 : Int) ≤ 2021 ∧
      (2021 : Int) ≤ 2147483647 ∧
      (qwtDateOfWeek0 mondayLocale 2021).isValid = true ∧
      (qwtDateOfWeek0 mondayLocale 2021).dayOfWeek = qwtFirstDayOfWeek mondayLocale ∧
      ∃ thursday : QDate, thursday.isValid = true ∧ thursday.dayOfWeek = Thursday ∧
        thursday.year = 2021 ∧
        (∀ other : QDate, other.isValid = true → other.dayOfWeek = Thursday →
          other.year = 2021 → thursday.jd ≤ other.jd) ∧
        (qwtDateOfWeek0 mondayLocale 2021).jd ≤ thursday.jd ∧
        thursday.jd ≤ (qwtDateOfWeek0 mondayLocale 2021).jd + 6 :=
  ⟨by decide, by decide, by decide, by decide,
    qwtDateOfWeek0_iso mondayLocale 2021 (by decide) (by decide) (by decide) (by decide)⟩

/-- A number within the range of a 32-bit `int` is not changed by the
reduction. -/
theorem wrapInt_eq (x : Int) (h1 : -2147483648 ≤ x) (h2 : x ≤ 2147483647) : wrapInt x = x := by
  simp only [wrapInt]; omega

/-- Claim C18 fails in January: with the mathematical floor `m1` is -2 and
the formula gives 2440590 for 1970-01-01, where `qwtToJulianDay` divides with
truncation toward zero (`m1` is -1) and returns 2440588. -/
theorem qwtToJulianDay_floor_counterexample :
    (-13 : Int) / 12 = -2 ∧ Int.tdiv (-13) 12 = -1 ∧
      specJulianDay 1970 1 1 = 2440590 ∧ qwtToJulianDay 1970 1 1 = 2440588 ∧
      qwtToJulianDay 1970 1 1 ≠ specJulianDay 1970 1 1 := by decide

/-- Claim C18 as amended: for every year from -2147483648 to 2147478847,
every month in 1..12 and every day, `qwtToJulianDay` equals the formula with
`m1` and `m2` computed by the integer division that truncates toward zero and
the floor at the other divisions; `m1` is -1 in January and February and 0 in
the other months. -/
theorem qwtToJulianDay_truncating (year month day : Int) (hlo : -2147483648 ≤ year)
    (hhi : year ≤ 2147478847) (hm1 : 1 ≤ month) (hm2 : month ≤ 12) :
    qwtToJulianDay year month day = specJulianDayTruncating year month day ∧
      Int.tdiv (month - 14) 12 = (if month ≤ 2 then -1 else 0) := by
  have hm : Int.tdiv (month - 14) 12 = (if month ≤ 2 then -1 else 0) := by
    interval_cases month <;> decide
  refine ⟨?_, hm⟩
  simp only [qwtToJulianDay, specJulianDayTruncating]
  rw [wrapInt_eq (year + 4800) (by omega) (by omega),
    wrapInt_eq (year + 4800 + Int.tdiv (month - 14) 12)
      (by rw [hm]; split_ifs <;> omega) (by rw [hm]; split_ifs <;> omega)]

/-- The date 2021-06-15 satisfies the conditions of
`qwtToJulianDay_truncating`; its Julian day is 2459381. -/
theorem qwtToJulianDay_truncating_witness :
    (-2147483648 : Int) ≤ 2021 ∧ (2021 : Int) ≤ 2147478847 ∧ (1 : Int) ≤ 6 ∧ (6 : Int) ≤ 12 ∧
      specJulianDayTruncating 2021 6 15 = 2459381 ∧
      (qwtToJulianDay 2021 6 15 = specJulianDayTruncating 2021 6 15 ∧
        Int.tdiv (6 - 14) 12 = (if (6 : Int) ≤ 2 then -1 else 0)) :=
  ⟨by decide, by decide, by decide, by decide, by decide,
    qwtToJulianDay_truncating 2021 6 15 (by decide) (by decide) (by decide) (by decide)⟩

/-- Day 1 of the following month of a year after year 0 lies the number of
days of the month after day 1 of the month. -/
theorem julianDayFromDate_next_month (Y M : Int) (hY : 0 < Y) (hM1 : 1 ≤ M) (hM2 : M < 12) :
    julianDayFromDate Y (M + 1) 1 = julianDayFromDate Y M 1 + daysOfMonth Y M := by
  have hleap : QDate.isLeapYear Y = true ↔ (Y % 4 = 0 ∧ Y % 100 ≠ 0) ∨ Y % 400 = 0 := by
    simp [QDate.isLeapYear, show ¬ Y < 1 by omega]
  simp only [julianDayFromDate, daysOfMonth, hleap, if_neg (show ¬ Y < 0 by omega)]
  interval_cases M <;> norm_num [QDate.monthDays] <;> (try split_ifs) <;> omega

/-- The Julian day of the calendar day following a valid date of a year
after year 0 is one more than the Julian day of the date. -/
theorem julianDayFromDate_followingDay (y m d : Int) (hy : 1 ≤ y)
    (hv : QDate.isValidYMD y m d = true) :
    julianDayFromDate (followingDay y m d).year (followingDay y m d).month
      (followingDay y m d).day = julianDayFromDate y m d + 1 := by
  have hb : 1 ≤ d ∧ 1 ≤ m ∧ m ≤ 12 ∧ d ≤ daysOfMonth y m := by
    simp only [QDate.isValidYMD, if_neg (show ¬ y = 0 by omega), Bool.and_eq_true,
      Bool.or_eq_true, decide_eq_true_eq] at hv
    refine ⟨by omega, by omega, by omega, ?_⟩
    simp only [daysOfMonth]
    obtain ⟨-, h⟩ := hv
    rcases h with h | ⟨⟨h1, h2⟩, h3⟩
    · split_ifs with hc
      · rw [hc.1] at h
        simp only [QDate.monthDays, if_true] at h
        omega
      · exact h
    · rw [if_pos ⟨h2, h3⟩]; omega
  obtain ⟨hd1, hm1, hm2, hd2⟩ := hb
  simp only [followingDay]
  by_cases h1 : d < daysOfMonth y m
  · rw [if_pos h1]
    simp only [julianDayFromDate]; ring
  · rw [if_neg h1]
    have hd : d = daysOfMonth y m := by omega
    by_cases h2 : m < 12
    · rw [if_pos h2]
      simp only
      rw [julianDayFromDate_next_month y m (by omega) hm1 h2, julianDayFromDate_day y m d, hd]
      ring
    · rw [if_neg h2]
      simp only
      have hm : m = 12 := by omega
      have hdd : d = 31 := by rw [hd, hm]; simp [daysOfMonth, QDate.monthDays]
      rw [julianDayFromDate_jan_first (y + 1) (by omega), if_neg (by omega), hm, hdd]
      ring_nf

/-- For every valid date of the years 1 to 2147478846, `qwtToJulianDay` is
the Julian day of Qt, and its value for the following calendar day is one
greater. -/
theorem qwtToJulianDay_followingDay (y m d : Int) (hy1 : 1 ≤ y) (hy2 : y ≤ 2147478846)
    (hv : QDate.isValidYMD y m d = true) :
    qwtToJulianDay y m d = julianDayFromDate y m d ∧
      qwtToJulianDay (followingDay y m d).year (followingDay y m d).month
        (followingDay y m d).day = qwtToJulianDay y m d + 1 := by
  have hm : 1 ≤ m ∧ m ≤ 12 := by
    simp only [QDate.isValidYMD, if_neg (show ¬ y = 0 by omega), Bool.and_eq_true,
      decide_eq_true_eq] at hv
    omega
  have ha : 0 ≤ (14 - m) / 12 := by omega
  have h0 := qwtToJulianDay_eq y m d (by omega) (by omega) hm.1 hm.2
  have hnext := julianDayFromDate_followingDay y m d hy1 hv
  refine ⟨h0, ?_⟩
  rw [h0, ← hnext]
  simp only [followingDay]
  split_ifs with c1 c2
  · exact qwtToJulianDay_eq y m (d + 1) (by omega) (by omega) hm.1 hm.2
  · have hb : 0 ≤ (14 - (m + 1)) / 12 := by omega
    exact qwtToJulianDay_eq y (m + 1) 1 (by omega) (by omega) (by omega) (by omega)
  · exact qwtToJulianDay_eq (y + 1) 1 1 (by omega) (by omega) (by omega) (by omega)

/-- Claim C19 fails for late years: 2147478848-02-29 is a valid date and
March 1 is its following day, `qwtToJulianDay` returns 784352264260 for the
first and -784384540603 for the second, where the Julian day of Qt is
784352264261; the anchor 1970-01-01 gives 2440588. -/
theorem qwtToJulianDay_following_overflow :
    qwtToJulianDay 1970 1 1 = 2440588 ∧
      QDate.isValidYMD 2147478848 2 29 = true ∧
      followingDay 2147478848 2 29 = ⟨2147478848, 3, 1⟩ ∧
      qwtToJulianDay 2147478848 2 29 = 784352264260 ∧
      qwtToJulianDay 2147478848 3 1 = -784384540603 ∧
      julianDayFromDate 2147478848 3 1 = 784352264261 ∧
      wrapInt (2147478848 + 4800) = -2147483648 := by decide

/-- A valid date-time at midnight of day 1 of its month, of a year up to
2147478847, is its own floor at granularity Month. -/
theorem qwtFloorDate_month_first (locale : QLocale) (t : QDateTime) (hv : t.isValid = true)
    (hm : t.time = QTime.ofHMS 0 0 0 0) (hd : t.date.day = 1) (hy : t.date.year ≤ 2147478847) :
    qwtFloorDate locale t TimeDate.Month = t := by
  by_cases hmin : TimeDate.minDate.jd < t.date.jd
  swap
  · exact qwtFloorDate_of_le_min locale t _ (le_of_not_lt hmin)
  obtain ⟨-, -, -, -, -, -, c6, -⟩ := qwtFloorDate_cases locale t hv hmin
  obtain ⟨⟨hd1, hd2⟩, -, -⟩ := (QDateTime_isValid_iff t).1 hv
  have hvd : t.date.isValid = true := (QDate_isValid_iff _).2 ⟨hd1, hd2⟩
  obtain ⟨-, gm, -⟩ := QDate_fields t.date hvd
  obtain ⟨b1, b2, -⟩ := getDate_bounds t.date.jd
  rw [← gm] at b1 b2
  have ha : 0 ≤ (14 - t.date.month) / 12 := by omega
  rw [QTime_ofHMS_zero] at hm
  rw [c6, if_pos (by omega), hd]
  cases t with
  | mk date time =>
    simp only at hm
    cases date
    simp only [hm, sub_self, sub_zero]

/-- A valid date-time of a month other than January differs from its floor
at granularity Year. -/
theorem qwtFloorDate_year_ne (locale : QLocale) (t : QDateTime) (hv : t.isValid = true)
    (hmo : t.date.month ≠ 1) : qwtFloorDate locale t TimeDate.Year ≠ t := by
  obtain ⟨⟨hd1, hd2⟩, -, -⟩ := (QDateTime_isValid_iff t).1 hv
  have hvd : t.date.isValid = true := (QDate_isValid_iff _).2 ⟨hd1, hd2⟩
  have hmin : TimeDate.minDate.jd < t.date.jd := by
    rw [minDate_jd]
    by_contra hc
    have hj : t.date.jd = -784350574879 := by omega
    obtain ⟨-, gm, -⟩ := QDate_fields t.date hvd
    rw [hj] at gm
    exact hmo (by rw [gm]; decide)
  obtain ⟨-, -, -, -, -, -, -, c7⟩ := qwtFloorDate_cases locale t hv hmin
  obtain ⟨-, -, hget⟩ := first_of_year_valid t.date hvd
  obtain ⟨-, gm, -⟩ := QDate_fields t.date hvd
  rw [c7]
  intro heq
  have hjd := congrArg (fun x : QDateTime => x.date.jd) heq
  simp only at hjd
  split_ifs at hjd
  · simp only at hjd
    rw [hjd] at hget
    rw [hget] at gm
    exact hmo gm
  · simp only [QDate.null, QDate.nullJd] at hjd
    omega

/-- For every list of valid date-times at midnight of day 1 of their months,
of years up to 2147478847, of which at least one is not in January,
`qwtIntervalType` returns Month. -/
theorem qwtIntervalType_month (locale : QLocale) (dateTimes : List QDateTime)
    (hv : ∀ dt ∈ dateTimes, dt.isValid = true)
    (hm : ∀ dt ∈ dateTimes, dt.time = QTime.ofHMS 0 0 0 0)
    (hd : ∀ dt ∈ dateTimes, dt.date.day = 1)
    (hy : ∀ dt ∈ dateTimes, dt.date.year ≤ 2147478847)
    (hmo : ∃ dt ∈ dateTimes, dt.date.month ≠ 1) :
    qwtIntervalType locale dateTimes = some TimeDate.Month := by
  have hpass : ∀ T : Int, T = 1 ∨ T = 2 ∨ T = 3 ∨ T = 4 ∨ T = 6 →
      ¬ ∃ x ∈ dateTimes, ¬ qwtFloorDate locale x T = x := by
    intro T hT
    rintro ⟨dt, hdt, hne⟩
    obtain ⟨m1, m2, m3, m4⟩ := qwtFloorDate_midnight locale dt (hv dt hdt) (hm dt hdt)
    have m6 := qwtFloorDate_month_first locale dt (hv dt hdt) (hm dt hdt) (hd dt hdt)
      (hy dt hdt)
    simp only [TimeDate.Second, TimeDate.Minute, TimeDate.Hour, TimeDate.Day,
      TimeDate.Month] at m1 m2 m3 m4 m6
    rcases hT with h | h | h | h | h <;> subst h <;> exact hne (by assumption)
  have hfail : ∃ x ∈ dateTimes, ¬ qwtFloorDate locale x 7 = x := by
    obtain ⟨dt, hdt, hne⟩ := hmo
    exact ⟨dt, hdt, qwtFloorDate_year_ne locale dt (hv dt hdt) hne⟩
  simp only [qwtIntervalType, qwtIntervalTypeLoop, TimeDate.Second, TimeDate.Year,
    TimeDate.Week, TimeDate.Month]
  norm_num
  rw [if_neg (hpass 1 (by omega)), if_neg (hpass 2 (by omega)), if_neg (hpass 3 (by omega)),
    if_neg (hpass 4 (by omega)), if_neg (hpass 6 (by omega)), if_pos hfail]

/-- Claim C11 fails for late years: 2147480000-06-01T00:00:00.000 is valid,
at midnight of day 1 of June, its floor at granularity Month carries the null
date because `year + 4800` wraps around in `qwtToJulianDay`, and
`qwtIntervalType` returns Week instead of Month; the three samples of the year
2021 classify as Month. -/
theorem qwtIntervalType_month_overflow :
    (mkDateTime 2147480000 6 1 0 0 0 0).isValid = true ∧
      (mkDateTime 2147480000 6 1 0 0 0 0).time = QTime.ofHMS 0 0 0 0 ∧
      (mkDateTime 2147480000 6 1 0 0 0 0).date.day = 1 ∧
      (mkDateTime 2147480000 6 1 0 0 0 0).date.month = 6 ∧
      qwtFloorDate mondayLocale (mkDateTime 2147480000 6 1 0 0 0 0) TimeDate.Month
        = ⟨QDate.null, QTime.ofHMS 0 0 0 0⟩ ∧
      qwtIntervalType mondayLocale [mkDateTime 2147480000 6 1 0 0 0 0] = some TimeDate.Week ∧
      qwtIntervalType mondayLocale [mkDateTime 2021 6 1 0 0 0 0, mkDateTime 2021 7 1 0 0 0 0,
        mkDateTime 2021 8 1 0 0 0 0] = some TimeDate.Month := by decide

/-- Claim C14: for every granularity a date-time whose date is at or after
the maximum date is returned unchanged by `qwtCeilDate`, and a date-time
whose date is at or before the minimum date is returned unchanged by
`qwtFloorDate`. -/
theorem qwtCeilDate_qwtFloorDate_boundary (locale : QLocale) (t : QDateTime) (T : Int) :
    (TimeDate.maxDate.jd ≤ t.date.jd → qwtCeilDate locale t T = t) ∧
    (t.date.jd ≤ TimeDate.minDate.jd → qwtFloorDate locale t T = t) := by
  constructor
  · intro h
    have h' : t.date.jd ≥ TimeDate.maxDate.jd := h
    simp only [qwtCeilDate, if_pos h']
  · intro h
    simp only [qwtFloorDate, if_pos h]

/-- Witness of claim C14: 13:45:30.250 on the maximum date is its own
ceiling at granularity Second, and 13:45:30.250 on the minimum date is its
own floor at granularity Second. -/
theorem qwtCeilDate_qwtFloorDate_boundary_witness :
    (TimeDate.maxDate.jd ≤ (QDateTime.mk TimeDate.maxDate (QTime.ofHMS 13 45 30 250)).date.jd ∧
      qwtCeilDate mondayLocale (QDateTime.mk TimeDate.maxDate (QTime.ofHMS 13 45 30 250))
        TimeDate.Second = QDateTime.mk TimeDate.maxDate (QTime.ofHMS 13 45 30 250)) ∧
    ((QDateTime.mk TimeDate.minDate (QTime.ofHMS 13 45 30 250)).date.jd ≤ TimeDate.minDate.jd ∧
      qwtFloorDate mondayLocale (QDateTime.mk TimeDate.minDate (QTime.ofHMS 13 45 30 250))
        TimeDate.Second = QDateTime.mk TimeDate.minDate (QTime.ofHMS 13 45 30 250)) :=
  ⟨⟨by decide, (qwtCeilDate_qwtFloorDate_boundary mondayLocale
      (QDateTime.mk TimeDate.maxDate (QTime.ofHMS 13 45 30 250)) TimeDate.Second).1 (by decide)⟩,
    ⟨by decide, (qwtCeilDate_qwtFloorDate_boundary mondayLocale
      (QDateTime.mk TimeDate.minDate (QTime.ofHMS 13 45 30 250)) TimeDate.Second).2 (by decide)⟩⟩

/-- Claim C15 fails: with the week starting on Monday outside the United
States `qwtDateOfWeek0( 2021 )` is not 2020-12-28. -/
theorem qwtDateOfWeek0_2021_counterexample :
    mondayLocale.firstDayOfWeek = DayOfWeek.Monday ∧ mondayLocale.isUnitedStates = false ∧
    qwtDateOfWeek0 mondayLocale 2021 ≠ QDate.ofYMD 2020 12 28 := by decide

/-- Claim C15 as amended: with the week starting on Monday outside the
United States `qwtDateOfWeek0( 2021 )` returns 2021-01-04, the Monday of the
week of Thursday 2021-01-07; the Thursday of the week of 2020-12-28 is
2020-12-31, in the year before. -/
theorem qwtDateOfWeek0_2021 :
    qwtDateOfWeek0 mondayLocale 2021 = QDate.ofYMD 2021 1 4 ∧
    (QDate.ofYMD 2021 1 4).dayOfWeek = 1 ∧
    (QDate.ofYMD 2021 1 4).addDays 3 = QDate.ofYMD 2021 1 7 ∧
    (QDate.ofYMD 2021 1 7).dayOfWeek = Thursday ∧
    (QDate.ofYMD 2021 1 1).dayOfWeek = 5 ∧
    (QDate.ofYMD 2020 12 28).addDays 3 = QDate.ofYMD 2020 12 31 := by decide

/-- Claim C17: `TimeScaleDraw::format` maps Week to the pattern of Day and Hour
to the pattern of Minute, the patterns of Year, Month, Day, Minute, Second
and Millisecond are pairwise distinct, and every value outside the eight
granularities maps to the pattern of Millisecond. -/
theorem format_lookup :
    TimeScaleDraw.format TimeDate.Week = TimeScaleDraw.format TimeDate.Day ∧
    TimeScaleDraw.format TimeDate.Hour = TimeScaleDraw.format TimeDate.Minute ∧
    [TimeScaleDraw.format TimeDate.Year, TimeScaleDraw.format TimeDate.Month,
      TimeScaleDraw.format TimeDate.Day, TimeScaleDraw.format TimeDate.Minute,
      TimeScaleDraw.format TimeDate.Second,
      TimeScaleDraw.format TimeDate.Millisecond].Nodup ∧
    ∀ x : Int, x < TimeDate.Millisecond ∨ TimeDate.Year < x →
      TimeScaleDraw.format x = TimeScaleDraw.format TimeDate.Millisecond := by
  refine ⟨by decide, by decide, by decide, ?_⟩
  intro x hx
  simp only [TimeDate.Millisecond, TimeDate.Year] at hx
  simp only [TimeScaleDraw.format, TimeDate.Year, TimeDate.Month, TimeDate.Week, TimeDate.Day,
    TimeDate.Hour, TimeDate.Minute, TimeDate.Second, TimeDate.Millisecond]
  rw [if_neg (by omega), if_neg (by omega), if_neg (by omega), if_neg (by omega),
    if_neg (by omega)]
  decide

/-- Witness of claim C17: the value 8, one past Year, maps to the pattern of
Millisecond. -/
theorem format_lookup_witness :
    ((8 : Int) < TimeDate.Millisecond ∨ TimeDate.Year < (8 : Int)) ∧
    TimeScaleDraw.format 8 = "hh:mm:ss:zzz\nddd dd MMM yyyy" ∧
    TimeScaleDraw.format 8 = TimeScaleDraw.format TimeDate.Millisecond :=
  ⟨by decide, by decide, format_lookup.2.2.2 8 (by decide)⟩

/-- Claim C12: for every list of valid date-times with dates after the minimum
date that contains a sample with a nonzero millisecond field,
`qwtIntervalType` returns Millisecond. -/
theorem qwtIntervalType_millisecond (locale : QLocale) (dateTimes : List QDateTime)
    (hv : ∀ dt ∈ dateTimes, dt.isValid = true ∧ TimeDate.minDate.jd < dt.date.jd)
    (hms : ∃ dt ∈ dateTimes, dt.time.msec ≠ 0) :
    qwtIntervalType locale dateTimes = some TimeDate.Millisecond := by
  have hfail : ∃ x ∈ dateTimes, ¬ qwtFloorDate locale x 1 = x := by
    obtain ⟨dt, hdt, hne⟩ := hms
    obtain ⟨hvalid, hmin⟩ := hv dt hdt
    refine ⟨dt, hdt, ?_⟩
    obtain ⟨-, c1, -⟩ := qwtFloorDate_cases locale dt hvalid hmin
    simp only [TimeDate.Second] at c1
    rw [c1]
    obtain ⟨-, ht1, ht2⟩ := (QDateTime_isValid_iff dt).1 hvalid
    have hvt : dt.time.isValid = true := (QTime_isValid_iff _).2 ⟨ht1, ht2⟩
    obtain ⟨-, -, -, g4⟩ := QTime_fields dt.time hvt
    rw [g4] at hne
    intro heq
    have hmds := congrArg (fun x : QDateTime => x.time.mds) heq
    simp only at hmds
    omega
  simp only [qwtIntervalType, qwtIntervalTypeLoop, TimeDate.Second, TimeDate.Year,
    TimeDate.Week, TimeDate.Millisecond]
  norm_num
  intro hall
  obtain ⟨x, hx, hne⟩ := hfail
  exact absurd (hall x hx) hne

/-- Witness of claim C12: the single sample 2021-06-15T13:45:30.250 classifies
as Millisecond. -/
theorem qwtIntervalType_millisecond_witness :
    (∀ dt ∈ [mkDateTime 2021 6 15 13 45 30 250],
      dt.isValid = true ∧ TimeDate.minDate.jd < dt.date.jd) ∧
    (∃ dt ∈ [mkDateTime 2021 6 15 13 45 30 250], dt.time.msec ≠ 0) ∧
    qwtIntervalType mondayLocale [mkDateTime 2021 6 15 13 45 30 250]
      = some TimeDate.Millisecond :=
  ⟨by decide, by decide,
    qwtIntervalType_millisecond mondayLocale [mkDateTime 2021 6 15 13 45 30 250]
      (by decide) (by decide)⟩

/-- The test of the inner loop of `qwtIntervalType` fails exactly when not
every sample equals its floor. -/
theorem any_ne_eq_not_allAligned (locale : QLocale) (dateTimes : List QDateTime) (T : Int) :
    dateTimes.any (fun dt => decide (qwtFloorDate locale dt T ≠ dt))
      = !(allAligned locale dateTimes T) := by
  simp only [allAligned]
  induction dateTimes with
  | nil => rfl
  | cons x xs ih =>
    simp only [List.any_cons, List.all_cons, ih, Bool.not_and]
    congr 1
    by_cases h : qwtFloorDate locale x T = x <;> simp [h]

/-- Claim C20: for every list of date-times the display pattern of the
granularity that `qwtIntervalType` returns is the pattern of the last
granularity of the longest prefix of the scan order Second, Minute, Hour,
Day, Month, Year at which every sample equals its own floor, Millisecond
when Second already fails. -/
theorem format_qwtIntervalType (locale : QLocale) (dateTimes : List QDateTime) :
    (qwtIntervalType locale dateTimes).map TimeScaleDraw.format
      = some (TimeScaleDraw.format (specIntervalType locale dateTimes)) := by
  simp only [qwtIntervalType, qwtIntervalTypeLoop, specIntervalType, scanOrder, lastAligned,
    any_ne_eq_not_allAligned, TimeDate.Millisecond, TimeDate.Second, TimeDate.Minute,
    TimeDate.Hour, TimeDate.Day, TimeDate.Week, TimeDate.Month, TimeDate.Year]
  norm_num
  generalize allAligned locale dateTimes 1 = a1
  generalize allAligned locale dateTimes 2 = a2
  generalize allAligned locale dateTimes 3 = a3
  generalize allAligned locale dateTimes 4 = a4
  generalize allAligned locale dateTimes 6 = a6
  generalize allAligned locale dateTimes 7 = a7
  cases a1 <;> cases a2 <;> cases a3 <;> cases a4 <;> cases a6 <;> cases a7 <;>
    simp <;> decide

